import Mathlib

/-!
# go-scraping-detiknews-title-content: the dispatch pipeline of main.go

A shallow embedding of `ProcessFile`, `worker` and `scraping` of `src/main.go`.

* The csv reader, the HTTP client and the HTML parser are libraries: the reader is the
  sequence of results its successive `Read` calls return, the network is a function from a
  url to the result of `http.Get`, and a response carries the outcome of parsing its body.
* The csv writer is the sequence of records handed to `Write`; `csvRecord` gives the bytes
  that `Write` of `encoding/csv` produces for a record.
* `ProcessFile` runs a sequential first part (`ProcessFile.start`) and then the producer
  loop concurrently with the workers: a state holds one program counter for the producer
  and one for each worker, and a schedule (a list of actors) picks who makes the next move.
  Each move is one statement of the source.
-/

namespace Detik

/-! ## Constants -/

/-- The constant `batchSize` of main.go: capacity of `jobsChan`, and the period of the
worker's "Write to csv" log line. -/
def batchSize : Nat := 1000

/-- The constant `workerCount` of main.go. -/
def workerCount : Nat := 100

/-- The two constants as parameters, so that statements can range over every worker count. -/
structure Config where
  batchSize : Nat
  workerCount : Nat
deriving DecidableEq, Repr

/-- The values compiled into main.go. -/
def sourceConfig : Config := ⟨batchSize, workerCount⟩

/-! ## Data -/

/-- The value `map[string]string{"title": .., "url": ..}` sent over `jobsChan`. -/
structure Job where
  title : String
  url : String
deriving DecidableEq, Repr

/-- One result of `reader.Read()`: a record, or an error other than `io.EOF`.
`io.EOF` is the end of the list of results. -/
inductive ReadResult where
  | record (fields : List String)
  | error (msg : String)
deriving DecidableEq, Repr

/-- A child node of the selection `div.detail__body-text`: its `goquery.NodeName` and its
`Text()`. -/
structure Node where
  name : String
  text : String
deriving DecidableEq, Repr

/-- What `http.Get` answers when it does not fail: the status code, and the outcome of
`goquery.NewDocumentFromReader(res.Body)` followed by
`Find("div.detail__body-text").Contents()` (`none` when the body does not parse). -/
structure Response where
  statusCode : Nat
  contents : Option (List Node)
deriving DecidableEq, Repr

/-- The network: `none` is a transport-level failure of `http.Get`. -/
abbrev Net := String → Option Response

/-- How a call of `scraping` ends. `fatal` is `log.Fatal`, which exits the process. -/
inductive ScrapeResult where
  | fatal
  | err (statusCode : Nat)
  | ok (content : String)
deriving DecidableEq, Repr

/-- A line written through the `log` package. -/
inductive LogEntry where
  | emptyField
  | statusError (statusCode : Nat)
  | scrapeError (url : String)
  | fatal
  | rowWritten (title : String) (id : Nat) (couter : Nat)
  | writeToCsv
deriving DecidableEq, Repr

/-- The struct `WriterMutex`: `mu` is true while the mutex is held, `w` is the sequence of
records handed to the csv writer. -/
structure WriterMutex where
  mu : Bool
  w : List (List String)
deriving DecidableEq, Repr

/-- The function `NewWriteMutex`. -/
def NewWriteMutex (writer : List (List String)) : WriterMutex :=
  { mu := false, w := writer }

/-- The struct `CsvProcessor`: the counter of `wg`, and the buffered channel `jobsChan`
(its buffer, oldest first, and whether it is closed). -/
structure CsvProcessor where
  wg : Nat
  jobsChan : List Job
  closed : Bool
deriving DecidableEq, Repr

/-- The function `NewCsvProcessor`. -/
def NewCsvProcessor : CsvProcessor :=
  { wg := 0, jobsChan := [], closed := false }

/-- Where a worker stands in the body of `worker`. -/
inductive WorkerPc where
  | recv
  | scrape (data : Job)
  | lock (title content : String)
  | write (title content : String)
  | unlock (title : String)
  | exited
deriving DecidableEq, Repr

/-- One goroutine `c.worker(writerMutex, id)` with its local `couter`. -/
structure Worker where
  id : Nat
  couter : Nat
  pc : WorkerPc
deriving DecidableEq, Repr

/-- Where the producer stands in `ProcessFile` once the output header is written. -/
inductive ProducerPc where
  | spawn (i : Nat)
  | read
  | add (data : Job)
  | send (data : Job)
  | close
  | wait
  | returned
deriving DecidableEq, Repr

/-- The state of a run. `submitted` (the jobs sent over `jobsChan` so far) and `fetched`
(the urls `scraping` was called on so far) are histories; `crashed` is set by `log.Fatal`,
which ends every goroutine. -/
structure State where
  titleIndex : Int
  urlIndex : Int
  reader : List ReadResult
  writer : WriterMutex
  c : CsvProcessor
  workers : List Worker
  pc : ProducerPc
  log : List LogEntry
  submitted : List Job
  fetched : List String
  crashed : Bool
  flushed : Bool
deriving DecidableEq, Repr

/-- Who makes the next move. -/
inductive Actor where
  | producer
  | worker (k : Nat)
deriving DecidableEq, Repr

/-! ## The sequential part of ProcessFile -/

/-- The loop `for i, v := range titleUrlIndex` of `ProcessFile` (lines 78-84), from index
`i` on, with the current `(titleIndex, urlIndex)`. -/
def headerLoop : List String → Nat → Int × Int → Int × Int
  | [], _, acc => acc
  | v :: rest, i, acc =>
    if v = "title" then headerLoop rest (i + 1) ((i : Int), acc.2)
    else if v = "url" then headerLoop rest (i + 1) (acc.1, (i : Int))
    else headerLoop rest (i + 1) acc

/-- The loop `for i, v := range record` of `ProcessFile` (lines 113-120), from index `i`
on, with the current `data`. -/
def recordLoop (titleIndex urlIndex : Int) : List String → Nat → Job → Job
  | [], _, data => data
  | v :: rest, i, data =>
    let data1 := if (i : Int) = titleIndex then { data with title := v } else data
    let data2 := if (i : Int) = urlIndex then { data1 with url := v } else data1
    recordLoop titleIndex urlIndex rest (i + 1) data2

/-- The `data` built from one record (lines 112-120). -/
def recordData (titleIndex urlIndex : Int) (record : List String) : Job :=
  recordLoop titleIndex urlIndex record 0 { title := "", url := "" }

/-- The header record written to the output (line 93). -/
def outputHeader : List String := ["title", "content"]

/-- The function `ProcessFile` up to the first `go` statement (lines 67-94): read the header,
locate the columns, fail or write the output header. An error carries no state: nothing
was written and no worker was started. -/
def ProcessFile.start (input : List ReadResult) : Except String State :=
  match input with
  | [] => .error "EOF"
  | .error msg :: _ => .error msg
  | .record titleUrlIndex :: rest =>
    let idx := headerLoop titleUrlIndex 0 (-1, -1)
    if idx.1 = -1 ∨ idx.2 = -1 then .error "title or url not found"
    else .ok
      { titleIndex := idx.1
        urlIndex := idx.2
        reader := rest
        writer := NewWriteMutex [outputHeader]
        c := NewCsvProcessor
        workers := []
        pc := .spawn 0
        log := []
        submitted := []
        fetched := []
        crashed := false
        flushed := false }

/-! ## scraping -/

/-- The callback of `Each` in `scraping` (lines 186-192) applied to one node. -/
def appendNode (content : String) (s : Node) : String :=
  if s.name = "#text" then content ++ s.text
  else if s.name = "p" then content ++ s.text
  else content

/-- The function `scraping`. -/
def scraping (net : Net) (url : String) : ScrapeResult :=
  match net url with
  | none => .fatal
  | some res =>
    if res.statusCode ≠ 200 then .err res.statusCode
    else
      match res.contents with
      | none => .fatal
      | some nodes => .ok (nodes.foldl appendNode "")

/-! ## The concurrent part -/

/-- The record `[]string{quotedTitle, quotedContent}` of `worker` (lines 148-153). -/
def dataRow (title content : String) : List String :=
  ["\"" ++ title ++ "\"", "\"" ++ content ++ "\""]

/-- One move of the producer: the rest of `ProcessFile` (lines 97-134). The send blocks
while the buffer of `jobsChan` is full (a buffered channel, as for every capacity of at
least one), and `wg.Wait()` blocks while the counter is not zero; a blocked move is `none`.
The deferred `writer.Flush()` runs at the return. -/
def ProcessFile.step (cfg : Config) (s : State) : Option State :=
  match s.pc with
  | .spawn i =>
    if i < cfg.workerCount then
      some { s with workers := s.workers ++ [{ id := i, couter := 0, pc := .recv }]
                    pc := .spawn (i + 1) }
    else some { s with pc := .read }
  | .read =>
    match s.reader with
    | [] => some { s with pc := .close }
    | .error _ :: _ => some { s with pc := .close }
    | .record record :: rest =>
      let data := recordData s.titleIndex s.urlIndex record
      if data.title = "" ∨ data.url = "" then
        some { s with reader := rest, log := s.log ++ [.emptyField] }
      else some { s with reader := rest, pc := .add data }
  | .add data => some { s with c := { s.c with wg := s.c.wg + 1 }, pc := .send data }
  | .send data =>
    if s.c.jobsChan.length < cfg.batchSize then
      some { s with c := { s.c with jobsChan := s.c.jobsChan ++ [data] }
                    submitted := s.submitted ++ [data]
                    pc := .read }
    else none
  | .close => some { s with c := { s.c with closed := true }, pc := .wait }
  | .wait => if s.c.wg = 0 then some { s with pc := .returned, flushed := true } else none
  | .returned => none

/-- One move of worker `k`: the function `worker` (lines 137-162). Receiving blocks while
the channel is empty and open, and ends the loop once it is empty and closed; `Lock` blocks
while the mutex is held. When `scraping` ends in `log.Fatal` the process exits: the state
is marked `crashed` and the worker, like every goroutine, is gone. -/
def worker (cfg : Config) (net : Net) (s : State) (k : Nat) : Option State :=
  match s.workers[k]? with
  | none => none
  | some wk =>
    match wk.pc with
    | .recv =>
      match s.c.jobsChan with
      | data :: rest =>
        some { s with c := { s.c with jobsChan := rest }
                      workers := s.workers.set k { wk with pc := .scrape data } }
      | [] =>
        if s.c.closed then some { s with workers := s.workers.set k { wk with pc := .exited } }
        else none
    | .scrape data =>
      match scraping net data.url with
      | .fatal =>
        some { s with fetched := s.fetched ++ [data.url]
                      log := s.log ++ [.fatal]
                      workers := s.workers.set k { wk with pc := .exited }
                      crashed := true }
      | .err code =>
        some { s with fetched := s.fetched ++ [data.url]
                      log := s.log ++ [.statusError code, .scrapeError data.url]
                      workers := s.workers.set k { wk with pc := .recv } }
      | .ok content =>
        some { s with fetched := s.fetched ++ [data.url]
                      workers := s.workers.set k { wk with pc := .lock data.title content } }
    | .lock title content =>
      if s.writer.mu then none
      else some { s with writer := { s.writer with mu := true }
                         workers := s.workers.set k { wk with pc := .write title content } }
    | .write title content =>
      some { s with writer := { s.writer with w := s.writer.w ++ [dataRow title content] }
                    workers := s.workers.set k { wk with pc := .unlock title } }
    | .unlock title =>
      if wk.couter + 1 = cfg.batchSize then
        some { s with writer := { s.writer with mu := false }
                      log := s.log ++ [.rowWritten title wk.id wk.couter, .writeToCsv]
                      workers := s.workers.set k { wk with couter := 0, pc := .recv } }
      else
        some { s with writer := { s.writer with mu := false }
                      log := s.log ++ [.rowWritten title wk.id wk.couter]
                      workers := s.workers.set k { wk with couter := wk.couter + 1, pc := .recv } }
    | .exited => none

/-- One move of the chosen actor; nobody moves once `log.Fatal` has exited the process. -/
def step (cfg : Config) (net : Net) (s : State) (a : Actor) : Option State :=
  if s.crashed then none
  else
    match a with
    | .producer => ProcessFile.step cfg s
    | .worker k => worker cfg net s k

/-- The moves of a schedule, one after the other; `none` when the schedule picks an actor
that cannot move. -/
def run (cfg : Config) (net : Net) : List Actor → State → Option State
  | [], s => some s
  | a :: rest, s =>
    match step cfg net s a with
    | none => none
    | some s1 => run cfg net rest s1

/-- A worker holds no job: it waits at the channel or has left its loop. -/
def Worker.idle (wk : Worker) : Bool :=
  match wk.pc with
  | .recv => true
  | .exited => true
  | _ => false

/-- A worker is between `writer.mu.Lock()` and `writer.mu.Unlock()`. -/
def Worker.inCritical (wk : Worker) : Bool :=
  match wk.pc with
  | .write _ _ => true
  | .unlock _ => true
  | _ => false

/-- The producer has left the reading loop. -/
def ProducerPc.scanned : ProducerPc → Bool
  | .close => true
  | .wait => true
  | .returned => true
  | _ => false

/-- All submitted jobs have been processed: the producer has left the reading loop, the
channel is empty, no worker holds a job, and the process was not killed. -/
def drained (s : State) : Bool :=
  !s.crashed && s.pc.scanned && s.c.jobsChan.isEmpty && s.workers.all Worker.idle

/-- The data rows handed to the csv writer: everything after the first record. -/
def dataRows (s : State) : List (List String) := s.writer.w.tail

/-! ## The csv writer -/

/-- The function `unicode.IsSpace` of the Go standard library. -/
def isSpace (r : Char) : Bool :=
  (9 ≤ r.toNat && r.toNat ≤ 13) || r.toNat = 32 || r.toNat = 0x85 || r.toNat = 0xA0 ||
  r.toNat = 0x1680 || (0x2000 ≤ r.toNat && r.toNat ≤ 0x200A) || r.toNat = 0x2028 ||
  r.toNat = 0x2029 || r.toNat = 0x202F || r.toNat = 0x205F || r.toNat = 0x3000

/-- The method `fieldNeedsQuotes` of `csv.Writer` (Go standard library, `encoding/csv`) for
the writer `csv.NewWriter` returns, whose `Comma` is a comma. -/
def fieldNeedsQuotes (field : String) : Bool :=
  if field = "" then false
  else if field = "\\." then true
  else if field.data.any (fun c => c = '\n' || c = '\r' || c = '"' || c = ',') then true
  else
    match field.data with
    | r1 :: _ => isSpace r1
    | [] => false

/-- The characters `csv.Writer.Write` puts between the enclosing quotes of a field that
needs them: every double quote is doubled, everything else is kept (`UseCRLF` is false for
the writer `csv.NewWriter` returns, so carriage returns and line feeds are kept too). -/
def escapeChars : List Char → List Char
  | [] => []
  | c :: rest => if c = '"' then '"' :: '"' :: escapeChars rest else c :: escapeChars rest

/-- What `csv.Writer.Write` produces for one field. -/
def csvField (field : String) : String :=
  if fieldNeedsQuotes field then String.mk ('"' :: (escapeChars field.data ++ ['"']))
  else field

/-- What `csv.Writer.Write` produces for one record (lines 93 and 153): the fields separated
by commas, then a line feed. -/
def csvRecord (record : List String) : String :=
  String.intercalate "," (record.map csvField) ++ "\n"

/-- The bytes the csv writer has produced for the records handed to it so far (held in its
buffer or already passed on to the file). -/
def emitted (w : List (List String)) : String :=
  (w.map csvRecord).foldl (fun out line => out ++ line) ""

/-! ## The input, in the words of the specification -/

/-- The records the reading loop gets to see: the ones before the first read error. -/
def recordsRead : List ReadResult → List (List String)
  | [] => []
  | .error _ :: _ => []
  | .record fields :: rest => fields :: recordsRead rest

/-- The field of a record in column `i`: empty when the record is too short to have that
column (or when there is no such column). -/
def fieldAt (record : List String) (i : Int) : String :=
  if 0 ≤ i then record.getD i.toNat "" else ""

/-- A record with a non-empty title and a non-empty url. -/
def validRecord (titleIndex urlIndex : Int) (record : List String) : Bool :=
  decide (fieldAt record titleIndex ≠ "") && decide (fieldAt record urlIndex ≠ "")

/-- The job of a record: its title field and its url field. -/
def jobOfRecord (titleIndex urlIndex : Int) (record : List String) : Job :=
  { title := fieldAt record titleIndex, url := fieldAt record urlIndex }

/-- The jobs of the valid records of the input, in input order. -/
def validJobs (titleIndex urlIndex : Int) (input : List ReadResult) : List Job :=
  ((recordsRead input).filter (validRecord titleIndex urlIndex)).map
    (jobOfRecord titleIndex urlIndex)

/-- The row a job yields: the quoted title and content when `scraping` succeeds on its url,
no row otherwise. -/
def successRow (net : Net) (j : Job) : Option (List String) :=
  match scraping net j.url with
  | .ok content => some (dataRow j.title content)
  | _ => none

/-! ## Bookkeeping for the invariants -/

/-- The rows the given jobs yield. -/
def rowsOfJobs (net : Net) (jobs : List Job) : List (List String) :=
  jobs.filterMap (successRow net)

/-- The row that the job a worker holds has still to yield. -/
def WorkerPc.pendingRows (net : Net) : WorkerPc → List (List String)
  | .scrape data => (successRow net data).toList
  | .lock title content => [dataRow title content]
  | .write title content => [dataRow title content]
  | _ => []

/-- The url that a worker has still to call `scraping` on. -/
def WorkerPc.pendingUrls : WorkerPc → List String
  | .scrape data => [data.url]
  | _ => []

/-- One for a worker between `Lock` and `Unlock`, zero for the others. -/
def Worker.holds (wk : Worker) : Nat := if wk.inCritical then 1 else 0

/-- The jobs the producer has still to submit: the one it holds and those of the records
it has not read yet. -/
def pendingJobs (s : State) : List Job :=
  match s.pc with
  | .spawn _ => validJobs s.titleIndex s.urlIndex s.reader
  | .read => validJobs s.titleIndex s.urlIndex s.reader
  | .add data => data :: validJobs s.titleIndex s.urlIndex s.reader
  | .send data => data :: validJobs s.titleIndex s.urlIndex s.reader
  | _ => []

/-- The number of `wg.Add(1)` calls whose job is not sent yet. -/
def ProducerPc.added : ProducerPc → Nat
  | .send _ => 1
  | _ => 0

/-! ## Concrete runs -/

/-- The example of the specification: three records, the second one with an empty title. -/
def exampleInput : List ReadResult :=
  [.record ["title", "url"], .record ["A", "u1"], .record ["", "u2"], .record ["B", "u3"]]

/-- A network for the example: `u1` and `u3` answer with a page, every other url with 404. -/
def exampleNet : Net := fun url =>
  if url = "u1" then some { statusCode := 200, contents := some [{ name := "p", text := "c1" }] }
  else if url = "u3" then
    some { statusCode := 200
           contents := some [{ name := "#text", text := "c" }, { name := "script", text := "x" },
             { name := "p", text := "3" }] }
  else some { statusCode := 404, contents := none }

/-- The producer starts `n` workers, leaves the spawn loop, then reads and submits the three
records of the example, closes the channel and reaches `wg.Wait()`. -/
def produceExample (n : Nat) : List Actor :=
  List.replicate (n + 1) .producer ++ List.replicate 9 .producer

/-- Worker `k` receives a job and processes it up to and including `Unlock`. -/
def workJob (k : Nat) : List Actor := List.replicate 5 (.worker k)

/-- A schedule of the example with one worker, which processes the two jobs in turn and
leaves its loop. -/
def exampleSchedule1 : List Actor :=
  produceExample 1 ++ workJob 0 ++ workJob 0 ++ [.worker 0]

/-- A schedule of the example with `n + 2` workers: worker 0 receives the first job and
worker 1 the second, and worker 1 writes its row first. -/
def exampleSchedule (n : Nat) : List Actor :=
  produceExample (n + 2) ++ [.worker 0] ++ workJob 1 ++ List.replicate 4 (.worker 0)

/-- The state a schedule leads to from the start of `ProcessFile` on an input: `none` when
`ProcessFile` fails before its first `go` statement or the schedule picks an actor that
cannot move. -/
def finalState (cfg : Config) (net : Net) (input : List ReadResult) (sched : List Actor) :
    Option State :=
  match ProcessFile.start input with
  | .ok s0 => run cfg net sched s0
  | .error _ => none

/-- Where `exampleSchedule1` leads. -/
def exampleFinal1 : State :=
  { titleIndex := 0
    urlIndex := 1
    reader := []
    writer := { mu := false, w := [["title", "content"], ["\"A\"", "\"c1\""], ["\"B\"", "\"c3\""]] }
    c := { wg := 2, jobsChan := [], closed := true }
    workers := [{ id := 0, couter := 2, pc := .exited }]
    pc := .wait
    log := [.emptyField, .rowWritten "A" 0 0, .rowWritten "B" 0 1]
    submitted := [{ title := "A", url := "u1" }, { title := "B", url := "u3" }]
    fetched := ["u1", "u3"]
    crashed := false
    flushed := false }

/-- Where `exampleSchedule n` leads. -/
def exampleFinal (n : Nat) : State :=
  { titleIndex := 0
    urlIndex := 1
    reader := []
    writer := { mu := false, w := [["title", "content"], ["\"B\"", "\"c3\""], ["\"A\"", "\"c1\""]] }
    c := { wg := 2, jobsChan := [], closed := true }
    workers := [{ id := 0, couter := 1, pc := .recv }, { id := 1, couter := 1, pc := .recv }]
      ++ (List.range n).map (fun i => { id := i + 2, couter := 0, pc := .recv })
    pc := .wait
    log := [.emptyField, .rowWritten "B" 1 0, .rowWritten "A" 0 0]
    submitted := [{ title := "A", url := "u1" }, { title := "B", url := "u3" }]
    fetched := ["u3", "u1"]
    crashed := false
    flushed := false }

/-- Worker 0 has received the first job of the example and is about to call `scraping`. -/
def receiveFirst : List Actor := produceExample 1 ++ [.worker 0]

/-- Where `receiveFirst` leads. -/
def exampleScraping : State :=
  { titleIndex := 0
    urlIndex := 1
    reader := []
    writer := { mu := false, w := [["title", "content"]] }
    c := { wg := 2, jobsChan := [{ title := "B", url := "u3" }], closed := true }
    workers := [{ id := 0, couter := 0, pc := .scrape { title := "A", url := "u1" } }]
    pc := .wait
    log := [.emptyField]
    submitted := [{ title := "A", url := "u1" }, { title := "B", url := "u3" }]
    fetched := []
    crashed := false
    flushed := false }

/-- A network on which `http.Get` fails for `u1`. -/
def transportNet : Net := fun url => if url = "u1" then none else exampleNet url

/-- A network that answers 503 for `u1`. -/
def statusNet : Net := fun url =>
  if url = "u1" then some { statusCode := 503, contents := none } else exampleNet url

/-- A network that answers 500 for every url. -/
def failingNet : Net := fun _ => some { statusCode := 500, contents := none }

/-- One worker receives the two jobs of the example in turn, calls `scraping` on each, and
leaves its loop. -/
def failingSchedule : List Actor := produceExample 1 ++ List.replicate 5 (.worker 0)

/-- Where `failingSchedule` leads on `failingNet`. -/
def failingFinal : State :=
  { titleIndex := 0
    urlIndex := 1
    reader := []
    writer := { mu := false, w := [["title", "content"]] }
    c := { wg := 2, jobsChan := [], closed := true }
    workers := [{ id := 0, couter := 0, pc := .exited }]
    pc := .wait
    log := [.emptyField, .statusError 500, .scrapeError "u1", .statusError 500,
      .scrapeError "u3"]
    submitted := [{ title := "A", url := "u1" }, { title := "B", url := "u3" }]
    fetched := ["u1", "u3"]
    crashed := false
    flushed := false }

/-- An input whose only record has a title with two double quotes in it. -/
def quoteInput : List ReadResult :=
  [.record ["title", "url"], .record ["say \"hi\"", "u1"]]

/-- One worker: the producer submits the record of `quoteInput` and reaches `wg.Wait()`,
the worker receives the job, calls `scraping`, takes the mutex and writes the row. -/
def quoteSchedule : List Actor :=
  List.replicate 7 .producer ++ List.replicate 4 (.worker 0)

/-- An input whose only record has a title made of two spaces. -/
def blankTitleInput : List ReadResult :=
  [.record ["title", "url"], .record ["  ", "u1"]]

/-- The producer starts the workers of main.go, leaves the spawn loop, and reads and submits
one record. -/
def submitFirst : List Actor :=
  List.replicate (workerCount + 1) .producer ++ List.replicate 3 .producer

/-- The invariant of a run over an input whose valid records yield the jobs `total`. -/
structure Inv (net : Net) (total : List Job) (s : State) : Prop where
  header : s.writer.w = outputHeader :: dataRows s
  prod : s.submitted ++ pendingJobs s = total
  rows : ∀ r, (dataRows s).count r
      + ((s.workers.map (fun wk => (wk.pc.pendingRows net).count r)).sum
      + (rowsOfJobs net s.c.jobsChan).count r) = (rowsOfJobs net s.submitted).count r
  urls : ∀ u, s.fetched.count u
      + ((s.workers.map (fun wk => wk.pc.pendingUrls.count u)).sum
      + (s.c.jobsChan.map Job.url).count u) = (s.submitted.map Job.url).count u
  mutex : (s.workers.map Worker.holds).sum = if s.writer.mu then 1 else 0
  counter : s.c.wg = s.submitted.length + s.pc.added
  waited : s.pc = .returned → s.c.wg = 0

/-! ## The header loop -/

theorem headerLoop_fst (l : List String) (i : Nat) (acc : Int × Int) :
    (headerLoop l i acc).1 = -1 ↔ acc.1 = -1 ∧ "title" ∉ l := by
  induction l generalizing i acc with
  | nil => simp [headerLoop]
  | cons v rest ih =>
    unfold headerLoop
    by_cases hv : v = "title"
    · subst hv
      simp only [if_true, ih, List.mem_cons, true_or, not_true_eq_false, and_false, iff_false,
        not_and]
      intro h
      omega
    · by_cases hu : v = "url"
      · subst hu
        simp [ih]
      · simp only [hv, hu, if_false, ih, List.mem_cons, not_or]
        constructor
        · rintro ⟨h1, h2⟩
          exact ⟨h1, fun h => hv h.symm, h2⟩
        · rintro ⟨h1, _, h2⟩
          exact ⟨h1, h2⟩

theorem headerLoop_snd (l : List String) (i : Nat) (acc : Int × Int) :
    (headerLoop l i acc).2 = -1 ↔ acc.2 = -1 ∧ "url" ∉ l := by
  induction l generalizing i acc with
  | nil => simp [headerLoop]
  | cons v rest ih =>
    unfold headerLoop
    by_cases hv : v = "title"
    · subst hv
      simp [ih]
    · by_cases hu : v = "url"
      · subst hu
        rw [if_neg hv, if_pos rfl, ih]
        simp only [List.mem_cons, true_or, not_true_eq_false, and_false, iff_false, not_and]
        intro h
        omega
      · simp only [hv, hu, if_false, ih, List.mem_cons, not_or]
        constructor
        · rintro ⟨h1, h2⟩
          exact ⟨h1, fun h => hu h.symm, h2⟩
        · rintro ⟨h1, _, h2⟩
          exact ⟨h1, h2⟩

theorem headerLoop_fst_points (l : List String) (i : Nat) (acc : Int × Int) :
    (headerLoop l i acc).1 = acc.1 ∨
      ∃ n : Nat, (headerLoop l i acc).1 = ((i + n : Nat) : Int) ∧ l.get? n = some "title" := by
  induction l generalizing i acc with
  | nil => simp [headerLoop]
  | cons v rest ih =>
    unfold headerLoop
    by_cases hv : v = "title"
    · subst hv
      simp only [if_true]
      rcases ih (i + 1) ((i : Int), acc.2) with h | ⟨n, h1, h2⟩
      · right
        exact ⟨0, by simpa using h, by simp⟩
      · right
        exact ⟨n + 1, by rw [h1]; congr 1; omega, by simpa using h2⟩
    · by_cases hu : v = "url"
      · subst hu
        rw [if_neg hv, if_pos rfl]
        rcases ih (i + 1) (acc.1, (i : Int)) with h | ⟨n, h1, h2⟩
        · left
          exact h
        · right
          exact ⟨n + 1, by rw [h1]; congr 1; omega, by simpa using h2⟩
      · simp only [hv, hu, if_false]
        rcases ih (i + 1) acc with h | ⟨n, h1, h2⟩
        · left
          exact h
        · right
          exact ⟨n + 1, by rw [h1]; congr 1; omega, by simpa using h2⟩

theorem headerLoop_snd_points (l : List String) (i : Nat) (acc : Int × Int) :
    (headerLoop l i acc).2 = acc.2 ∨
      ∃ n : Nat, (headerLoop l i acc).2 = ((i + n : Nat) : Int) ∧ l.get? n = some "url" := by
  induction l generalizing i acc with
  | nil => simp [headerLoop]
  | cons v rest ih =>
    unfold headerLoop
    by_cases hv : v = "title"
    · subst hv
      simp only [if_true]
      rcases ih (i + 1) ((i : Int), acc.2) with h | ⟨n, h1, h2⟩
      · left
        simpa using h
      · right
        exact ⟨n + 1, by rw [h1]; congr 1; omega, by simpa using h2⟩
    · by_cases hu : v = "url"
      · subst hu
        rw [if_neg hv, if_pos rfl]
        rcases ih (i + 1) (acc.1, (i : Int)) with h | ⟨n, h1, h2⟩
        · right
          exact ⟨0, by simpa using h, by simp⟩
        · right
          exact ⟨n + 1, by rw [h1]; congr 1; omega, by simpa using h2⟩
      · simp only [hv, hu, if_false]
        rcases ih (i + 1) acc with h | ⟨n, h1, h2⟩
        · left
          exact h
        · right
          exact ⟨n + 1, by rw [h1]; congr 1; omega, by simpa using h2⟩

/-! ## The record loop -/

theorem recordLoop_title (ti ui : Int) (l : List String) (i : Nat) (data : Job) :
    (recordLoop ti ui l i data).title =
      if (i : Int) ≤ ti ∧ ti < (i : Int) + l.length then l.getD (ti - i).toNat "" else data.title := by
  induction l generalizing i data with
  | nil =>
    have : ¬ ((i : Int) ≤ ti ∧ ti < (i : Int) + ([] : List String).length) := by
      simp only [List.length_nil]; omega
    rw [recordLoop, if_neg this]
  | cons v rest ih =>
    unfold recordLoop
    simp only [ih, List.length_cons]
    by_cases h0 : (i : Int) = ti
    · have h1 : ¬ (((i + 1 : Nat) : Int) ≤ ti ∧ ti < ((i + 1 : Nat) : Int) + rest.length) := by omega
      have h2 : (i : Int) ≤ ti ∧ ti < (i : Int) + ((rest.length + 1 : Nat) : Int) := by omega
      have h3 : (ti - (i : Int)).toNat = 0 := by omega
      rw [if_neg h1, if_pos h2, h3]
      simp only [h0, if_true, List.getD_cons_zero]
      split_ifs <;> rfl
    · by_cases h1 : ((i + 1 : Nat) : Int) ≤ ti ∧ ti < ((i + 1 : Nat) : Int) + rest.length
      · have h2 : (i : Int) ≤ ti ∧ ti < (i : Int) + ((rest.length + 1 : Nat) : Int) := by omega
        have h3 : (ti - (i : Int)).toNat = (ti - ((i + 1 : Nat) : Int)).toNat + 1 := by omega
        rw [if_pos h1, if_pos h2, h3]
        simp
      · have h2 : ¬ ((i : Int) ≤ ti ∧ ti < (i : Int) + ((rest.length + 1 : Nat) : Int)) := by omega
        rw [if_neg h1, if_neg h2]
        simp only [h0, if_false]
        split_ifs <;> rfl

theorem recordLoop_url (ti ui : Int) (l : List String) (i : Nat) (data : Job) :
    (recordLoop ti ui l i data).url =
      if (i : Int) ≤ ui ∧ ui < (i : Int) + l.length then l.getD (ui - i).toNat "" else data.url := by
  induction l generalizing i data with
  | nil =>
    have : ¬ ((i : Int) ≤ ui ∧ ui < (i : Int) + ([] : List String).length) := by
      simp only [List.length_nil]; omega
    rw [recordLoop, if_neg this]
  | cons v rest ih =>
    unfold recordLoop
    simp only [ih, List.length_cons]
    by_cases h0 : (i : Int) = ui
    · have h1 : ¬ (((i + 1 : Nat) : Int) ≤ ui ∧ ui < ((i + 1 : Nat) : Int) + rest.length) := by omega
      have h2 : (i : Int) ≤ ui ∧ ui < (i : Int) + ((rest.length + 1 : Nat) : Int) := by omega
      have h3 : (ui - (i : Int)).toNat = 0 := by omega
      rw [if_neg h1, if_pos h2, h3]
      simp only [h0, if_true, List.getD_cons_zero]
    · by_cases h1 : ((i + 1 : Nat) : Int) ≤ ui ∧ ui < ((i + 1 : Nat) : Int) + rest.length
      · have h2 : (i : Int) ≤ ui ∧ ui < (i : Int) + ((rest.length + 1 : Nat) : Int) := by omega
        have h3 : (ui - (i : Int)).toNat = (ui - ((i + 1 : Nat) : Int)).toNat + 1 := by omega
        rw [if_pos h1, if_pos h2, h3]
        simp
      · have h2 : ¬ ((i : Int) ≤ ui ∧ ui < (i : Int) + ((rest.length + 1 : Nat) : Int)) := by omega
        rw [if_neg h1, if_neg h2]
        simp only [h0, if_false]
        split_ifs <;> rfl

theorem recordData_eq (ti ui : Int) (record : List String) :
    recordData ti ui record = jobOfRecord ti ui record := by
  have key : ∀ x : Int, (if ((0 : Nat) : Int) ≤ x ∧ x < ((0 : Nat) : Int) + record.length
      then record.getD (x - ((0 : Nat) : Int)).toNat "" else "") = fieldAt record x := by
    intro x
    unfold fieldAt
    by_cases hx : 0 ≤ x
    · by_cases hl : x < record.length
      · have : ((0 : Nat) : Int) ≤ x ∧ x < ((0 : Nat) : Int) + record.length := by omega
        rw [if_pos this, if_pos hx]
        simp
      · have : ¬ (((0 : Nat) : Int) ≤ x ∧ x < ((0 : Nat) : Int) + record.length) := by omega
        rw [if_neg this, if_pos hx]
        have h4 : record.length ≤ x.toNat := by omega
        simp [List.getElem?_eq_none h4]
    · have : ¬ (((0 : Nat) : Int) ≤ x ∧ x < ((0 : Nat) : Int) + record.length) := by omega
      rw [if_neg this, if_neg hx]
  have h1 := recordLoop_title ti ui record 0 { title := "", url := "" }
  have h2 := recordLoop_url ti ui record 0 { title := "", url := "" }
  rw [key] at h1 h2
  unfold recordData jobOfRecord
  cases h : recordLoop ti ui record 0 { title := "", url := "" } with
  | mk t u =>
    rw [h] at h1 h2
    simp only at h1 h2
    rw [h1, h2]

/-! ## The jobs of an input -/

theorem validJobs_nil (ti ui : Int) : validJobs ti ui [] = [] := rfl

theorem validJobs_error (ti ui : Int) (msg : String) (rest : List ReadResult) :
    validJobs ti ui (.error msg :: rest) = [] := rfl

theorem validJobs_record (ti ui : Int) (record : List String) (rest : List ReadResult) :
    validJobs ti ui (.record record :: rest) =
      if (recordData ti ui record).title = "" ∨ (recordData ti ui record).url = "" then
        validJobs ti ui rest
      else recordData ti ui record :: validJobs ti ui rest := by
  rw [recordData_eq]
  unfold validJobs
  simp only [recordsRead, List.filter_cons, validRecord]
  have e1 : (jobOfRecord ti ui record).title = fieldAt record ti := rfl
  have e2 : (jobOfRecord ti ui record).url = fieldAt record ui := rfl
  rw [e1, e2]
  by_cases h1 : fieldAt record ti = "" <;> by_cases h2 : fieldAt record ui = "" <;> simp [h1, h2]

/-! ## Counting over the workers -/

theorem sum_map_set (f : Worker → Nat) (l : List Worker) (k : Nat) (a b : Worker)
    (h : l[k]? = some a) : ((l.set k b).map f).sum + f a = (l.map f).sum + f b := by
  induction l generalizing k with
  | nil => simp at h
  | cons x rest ih =>
    cases k with
    | zero =>
      simp only [List.getElem?_cons_zero, Option.some.injEq] at h
      subst h
      simp only [List.set_cons_zero, List.map_cons, List.sum_cons]
      omega
    | succ n =>
      simp only [List.getElem?_cons_succ] at h
      have := ih n h
      simp only [List.set_cons_succ, List.map_cons, List.sum_cons]
      omega

theorem count_rowsOfJobs_cons (net : Net) (r : List String) (j : Job) (l : List Job) :
    (rowsOfJobs net (j :: l)).count r
      = (successRow net j).toList.count r + (rowsOfJobs net l).count r := by
  unfold rowsOfJobs
  cases h : successRow net j with
  | none => simp [List.filterMap_cons, h]
  | some row => simp [List.filterMap_cons, h, List.count_cons]; omega

theorem count_rowsOfJobs_append (net : Net) (r : List String) (l : List Job) (j : Job) :
    (rowsOfJobs net (l ++ [j])).count r
      = (rowsOfJobs net l).count r + (successRow net j).toList.count r := by
  unfold rowsOfJobs
  cases h : successRow net j with
  | none => simp [List.filterMap_append, h]
  | some row => simp [List.filterMap_append, h]

/-! ## The invariant holds initially and is kept by every move -/

theorem start_ok (input : List ReadResult) (s0 : State) (h : ProcessFile.start input = .ok s0) :
    s0.reader = input.tail ∧ s0.writer = NewWriteMutex [outputHeader] ∧ s0.c = NewCsvProcessor ∧
      s0.workers = [] ∧ s0.pc = .spawn 0 ∧ s0.log = [] ∧ s0.submitted = [] ∧ s0.fetched = [] ∧
      s0.crashed = false ∧ s0.flushed = false := by
  unfold ProcessFile.start at h
  split at h
  · cases h
  · cases h
  · dsimp only at h
    split_ifs at h
    cases h
    simp

theorem init_inv (net : Net) (input : List ReadResult) (s0 : State)
    (h : ProcessFile.start input = .ok s0) :
    Inv net (validJobs s0.titleIndex s0.urlIndex input.tail) s0 := by
  obtain ⟨h1, h2, h3, h4, h5, -, h7, h8, -, -⟩ := start_ok input s0 h
  constructor
  · simp [h2, NewWriteMutex, dataRows]
  · simp [h7, pendingJobs, h5, h1]
  · intro r
    simp [h2, h3, h4, h7, NewWriteMutex, NewCsvProcessor, dataRows, rowsOfJobs]
  · intro u
    simp [h3, h4, h7, h8, NewCsvProcessor]
  · simp [h2, h4, NewWriteMutex]
  · simp [h3, h7, h5, NewCsvProcessor, ProducerPc.added]
  · simp [h5]

theorem producer_inv (cfg : Config) (net : Net) (total : List Job) (s s1 : State)
    (inv : Inv net total s) (h : ProcessFile.step cfg s = some s1) : Inv net total s1 := by
  obtain ⟨ihdr, iprod, irows, iurls, imutex, icounter, iwaited⟩ := inv
  unfold ProcessFile.step at h
  cases hpc : s.pc with
  | spawn i =>
    simp only [hpc] at h
    split_ifs at h
    · cases h
      refine ⟨by simpa [dataRows] using ihdr, by simpa [pendingJobs, hpc] using iprod, ?_, ?_, ?_,
        by simpa [hpc, ProducerPc.added] using icounter, by simp⟩
      · intro r
        simpa [dataRows, WorkerPc.pendingRows] using irows r
      · intro u
        simpa [WorkerPc.pendingUrls] using iurls u
      · simpa [Worker.holds, Worker.inCritical] using imutex
    · cases h
      exact ⟨by simpa [dataRows] using ihdr, by simpa [pendingJobs, hpc] using iprod,
        by simpa [dataRows] using irows, by simpa using iurls, by simpa using imutex,
        by simpa [hpc, ProducerPc.added] using icounter, by simp⟩
  | read =>
    simp only [hpc] at h
    split at h
    next hr =>
      cases h
      exact ⟨by simpa [dataRows] using ihdr,
        by simpa [pendingJobs, hpc, hr, validJobs_nil] using iprod,
        by simpa [dataRows] using irows, by simpa using iurls, by simpa using imutex,
        by simpa [hpc, ProducerPc.added] using icounter, by simp⟩
    next msg rest hr =>
      cases h
      exact ⟨by simpa [dataRows] using ihdr,
        by simpa [pendingJobs, hpc, hr, validJobs_error] using iprod,
        by simpa [dataRows] using irows, by simpa using iurls, by simpa using imutex,
        by simpa [hpc, ProducerPc.added] using icounter, by simp⟩
    next record rest hr =>
      have hv := validJobs_record s.titleIndex s.urlIndex record rest
      split_ifs at h with hempty
      · cases h
        rw [if_pos hempty] at hv
        exact ⟨by simpa [dataRows] using ihdr,
          by simpa [pendingJobs, hpc, hr, hv] using iprod,
          by simpa [dataRows] using irows, by simpa using iurls, by simpa using imutex,
          by simpa [hpc, ProducerPc.added] using icounter, by simp [hpc]⟩
      · cases h
        rw [if_neg hempty] at hv
        exact ⟨by simpa [dataRows] using ihdr,
          by simpa [pendingJobs, hpc, hr, hv] using iprod,
          by simpa [dataRows] using irows, by simpa using iurls, by simpa using imutex,
          by simpa [hpc, ProducerPc.added] using icounter, by simp⟩
  | add data =>
    simp only [hpc] at h
    cases h
    exact ⟨by simpa [dataRows] using ihdr,
      by simpa [pendingJobs, hpc] using iprod,
      by simpa [dataRows] using irows, by simpa using iurls, by simpa using imutex,
      by simp [hpc, ProducerPc.added] at icounter ⊢; omega, by simp⟩
  | send data =>
    simp only [hpc] at h
    split_ifs at h
    cases h
    refine ⟨by simpa [dataRows] using ihdr,
      by simpa [pendingJobs, hpc] using iprod, ?_, ?_, by simpa using imutex,
      by simp [hpc, ProducerPc.added] at icounter ⊢; omega, by simp⟩
    · intro r
      have := irows r
      simp only [dataRows, count_rowsOfJobs_append] at this ⊢
      omega
    · intro u
      have := iurls u
      simp only [List.map_append, List.count_append] at this ⊢
      omega
  | close =>
    simp only [hpc] at h
    cases h
    exact ⟨by simpa [dataRows] using ihdr,
      by simpa [pendingJobs, hpc] using iprod,
      by simpa [dataRows] using irows, by simpa using iurls, by simpa using imutex,
      by simpa [hpc, ProducerPc.added] using icounter, by simp⟩
  | wait =>
    simp only [hpc] at h
    split_ifs at h with hz
    cases h
    exact ⟨by simpa [dataRows] using ihdr,
      by simpa [pendingJobs, hpc] using iprod,
      by simpa [dataRows] using irows, by simpa using iurls, by simpa using imutex,
      by simpa [hpc, ProducerPc.added] using icounter, by simpa using hz⟩
  | returned =>
    simp only [hpc] at h
    cases h

theorem tail_append_of_header (w : List (List String)) (rows : List (List String))
    (row : List String) (h : w = outputHeader :: rows) :
    (w ++ [row]).tail = w.tail ++ [row] := by
  subst h
  rfl

theorem successRow_ok (net : Net) (j : Job) (content : String)
    (h : scraping net j.url = .ok content) :
    successRow net j = some (dataRow j.title content) := by
  unfold successRow
  rw [h]

theorem successRow_err (net : Net) (j : Job) (code : Nat) (h : scraping net j.url = .err code) :
    successRow net j = none := by
  unfold successRow
  rw [h]

theorem successRow_fatal (net : Net) (j : Job) (h : scraping net j.url = .fatal) :
    successRow net j = none := by
  unfold successRow
  rw [h]

theorem worker_inv (cfg : Config) (net : Net) (total : List Job) (s s1 : State) (k : Nat)
    (inv : Inv net total s) (h : worker cfg net s k = some s1) : Inv net total s1 := by
  obtain ⟨ihdr, iprod, irows, iurls, imutex, icounter, iwaited⟩ := inv
  unfold worker at h
  cases hk : s.workers[k]? with
  | none => simp [hk] at h
  | some wk =>
    simp only [hk] at h
    have setRows := fun (r : List String) (b : Worker) =>
      sum_map_set (fun wk => (wk.pc.pendingRows net).count r) s.workers k wk b hk
    have setUrls := fun (u : String) (b : Worker) =>
      sum_map_set (fun wk => wk.pc.pendingUrls.count u) s.workers k wk b hk
    have setHolds := fun (b : Worker) => sum_map_set Worker.holds s.workers k wk b hk
    cases hw : wk.pc with
    | recv =>
      simp only [hw] at h
      split at h
      next data rest hq =>
        cases h
        refine ⟨by simpa [dataRows] using ihdr, by simpa [pendingJobs] using iprod, ?_, ?_, ?_,
          by simpa using icounter, by simpa using iwaited⟩
        · intro r
          have h1 := irows r
          have h2 := setRows r { wk with pc := .scrape data }
          simp only [hw, hq, WorkerPc.pendingRows, count_rowsOfJobs_cons, List.count_nil,
            dataRows] at h1 h2 ⊢
          omega
        · intro u
          have h1 := iurls u
          have h2 := setUrls u { wk with pc := .scrape data }
          simp only [hw, hq, WorkerPc.pendingUrls, List.map_cons, List.count_cons,
            List.count_nil] at h1 h2 ⊢
          omega
        · have h2 := setHolds { wk with pc := .scrape data }
          have e1 : wk.holds = 0 := by simp [Worker.holds, Worker.inCritical, hw]
          have e2 : ({ wk with pc := .scrape data } : Worker).holds = 0 := by
            simp [Worker.holds, Worker.inCritical]
          rw [e1, e2] at h2
          dsimp only
          omega
      next hq =>
        split_ifs at h
        cases h
        refine ⟨by simpa [dataRows] using ihdr, by simpa [pendingJobs] using iprod, ?_, ?_, ?_,
          by simpa using icounter, by simpa using iwaited⟩
        · intro r
          have h1 := irows r
          have h2 := setRows r { wk with pc := .exited }
          simp only [hw, hq, WorkerPc.pendingRows, List.count_nil, dataRows] at h1 h2 ⊢
          omega
        · intro u
          have h1 := iurls u
          have h2 := setUrls u { wk with pc := .exited }
          simp only [hw, hq, WorkerPc.pendingUrls, List.count_nil] at h1 h2 ⊢
          omega
        · have h2 := setHolds { wk with pc := .exited }
          have e1 : wk.holds = 0 := by simp [Worker.holds, Worker.inCritical, hw]
          have e2 : ({ wk with pc := .exited } : Worker).holds = 0 := by
            simp [Worker.holds, Worker.inCritical]
          rw [e1, e2] at h2
          dsimp only
          omega
    | scrape data =>
      simp only [hw] at h
      split at h
      next hres =>
        cases h
        refine ⟨by simpa [dataRows] using ihdr, by simpa [pendingJobs] using iprod, ?_, ?_, ?_,
          by simpa using icounter, by simpa using iwaited⟩
        · intro r
          have h1 := irows r
          have h2 := setRows r { wk with pc := .exited }
          simp only [hw, WorkerPc.pendingRows, successRow_fatal net data hres,
            Option.toList, List.count_nil, dataRows] at h1 h2 ⊢
          omega
        · intro u
          have h1 := iurls u
          have h2 := setUrls u { wk with pc := .exited }
          simp only [hw, WorkerPc.pendingUrls, List.count_append, List.count_nil] at h1 h2 ⊢
          omega
        · have h2 := setHolds { wk with pc := .exited }
          have e1 : wk.holds = 0 := by simp [Worker.holds, Worker.inCritical, hw]
          have e2 : ({ wk with pc := .exited } : Worker).holds = 0 := by
            simp [Worker.holds, Worker.inCritical]
          rw [e1, e2] at h2
          dsimp only
          omega
      next code hres =>
        cases h
        refine ⟨by simpa [dataRows] using ihdr, by simpa [pendingJobs] using iprod, ?_, ?_, ?_,
          by simpa using icounter, by simpa using iwaited⟩
        · intro r
          have h1 := irows r
          have h2 := setRows r { wk with pc := .recv }
          simp only [hw, WorkerPc.pendingRows, successRow_err net data code hres,
            Option.toList, List.count_nil, dataRows] at h1 h2 ⊢
          omega
        · intro u
          have h1 := iurls u
          have h2 := setUrls u { wk with pc := .recv }
          simp only [hw, WorkerPc.pendingUrls, List.count_append, List.count_nil] at h1 h2 ⊢
          omega
        · have h2 := setHolds { wk with pc := .recv }
          have e1 : wk.holds = 0 := by simp [Worker.holds, Worker.inCritical, hw]
          have e2 : ({ wk with pc := .recv } : Worker).holds = 0 := by
            simp [Worker.holds, Worker.inCritical]
          rw [e1, e2] at h2
          dsimp only
          omega
      next content hres =>
        cases h
        refine ⟨by simpa [dataRows] using ihdr, by simpa [pendingJobs] using iprod, ?_, ?_, ?_,
          by simpa using icounter, by simpa using iwaited⟩
        · intro r
          have h1 := irows r
          have h2 := setRows r { wk with pc := .lock data.title content }
          simp only [hw, WorkerPc.pendingRows, successRow_ok net data content hres,
            Option.toList, dataRows] at h1 h2 ⊢
          omega
        · intro u
          have h1 := iurls u
          have h2 := setUrls u { wk with pc := .lock data.title content }
          simp only [hw, WorkerPc.pendingUrls, List.count_append, List.count_nil] at h1 h2 ⊢
          omega
        · have h2 := setHolds { wk with pc := .lock data.title content }
          have e1 : wk.holds = 0 := by simp [Worker.holds, Worker.inCritical, hw]
          have e2 : ({ wk with pc := .lock data.title content } : Worker).holds = 0 := by
            simp [Worker.holds, Worker.inCritical]
          rw [e1, e2] at h2
          dsimp only
          omega
    | lock title content =>
      simp only [hw] at h
      split_ifs at h with hmu
      cases h
      refine ⟨by simpa [dataRows] using ihdr, by simpa [pendingJobs] using iprod, ?_, ?_, ?_,
        by simpa using icounter, by simpa using iwaited⟩
      · intro r
        have h1 := irows r
        have h2 := setRows r { wk with pc := .write title content }
        simp only [hw, WorkerPc.pendingRows, dataRows] at h1 h2 ⊢
        omega
      · intro u
        have h1 := iurls u
        have h2 := setUrls u { wk with pc := .write title content }
        simp only [hw, WorkerPc.pendingUrls, List.count_nil] at h1 h2 ⊢
        omega
      · have h2 := setHolds { wk with pc := .write title content }
        have e1 : wk.holds = 0 := by simp [Worker.holds, Worker.inCritical, hw]
        have e2 : ({ wk with pc := .write title content } : Worker).holds = 1 := by
          simp [Worker.holds, Worker.inCritical]
        rw [e1, e2] at h2
        rw [if_neg hmu] at imutex
        dsimp only
        rw [if_pos rfl]
        omega
    | write title content =>
      simp only [hw] at h
      cases h
      have htail := tail_append_of_header s.writer.w (dataRows s) (dataRow title content) ihdr
      refine ⟨?_, by simpa [pendingJobs] using iprod, ?_, ?_, ?_,
        by simpa using icounter, by simpa using iwaited⟩
      · dsimp only [dataRows]
        rw [htail]
        rw [ihdr]
        rfl
      · intro r
        have h1 := irows r
        have h2 := setRows r { wk with pc := .unlock title }
        simp only [hw, WorkerPc.pendingRows, dataRows, htail, List.count_append,
          List.count_nil] at h1 h2 ⊢
        omega
      · intro u
        have h1 := iurls u
        have h2 := setUrls u { wk with pc := .unlock title }
        simp only [hw, WorkerPc.pendingUrls, List.count_nil] at h1 h2 ⊢
        omega
      · have h2 := setHolds { wk with pc := .unlock title }
        have e1 : wk.holds = 1 := by simp [Worker.holds, Worker.inCritical, hw]
        have e2 : ({ wk with pc := .unlock title } : Worker).holds = 1 := by
          simp [Worker.holds, Worker.inCritical]
        rw [e1, e2] at h2
        dsimp only
        omega
    | unlock title =>
      simp only [hw] at h
      have e1 : wk.holds = 1 := by simp [Worker.holds, Worker.inCritical, hw]
      split_ifs at h with hb
      · cases h
        refine ⟨by simpa [dataRows] using ihdr, by simpa [pendingJobs] using iprod, ?_, ?_, ?_,
          by simpa using icounter, by simpa using iwaited⟩
        · intro r
          have h1 := irows r
          have h2 := setRows r { wk with couter := 0, pc := .recv }
          simp only [hw, WorkerPc.pendingRows, dataRows, List.count_nil] at h1 h2 ⊢
          omega
        · intro u
          have h1 := iurls u
          have h2 := setUrls u { wk with couter := 0, pc := .recv }
          simp only [hw, WorkerPc.pendingUrls, List.count_nil] at h1 h2 ⊢
          omega
        · have h2 := setHolds { wk with couter := 0, pc := .recv }
          have e2 : ({ wk with couter := 0, pc := .recv } : Worker).holds = 0 := by
            simp [Worker.holds, Worker.inCritical]
          rw [e1, e2] at h2
          dsimp only
          have hle : (List.map Worker.holds s.workers).sum ≤ 1 := by
            rw [imutex]
            split_ifs <;> omega
          rw [if_neg (by simp)]
          omega
      · cases h
        refine ⟨by simpa [dataRows] using ihdr, by simpa [pendingJobs] using iprod, ?_, ?_, ?_,
          by simpa using icounter, by simpa using iwaited⟩
        · intro r
          have h1 := irows r
          have h2 := setRows r { wk with couter := wk.couter + 1, pc := .recv }
          simp only [hw, WorkerPc.pendingRows, dataRows, List.count_nil] at h1 h2 ⊢
          omega
        · intro u
          have h1 := iurls u
          have h2 := setUrls u { wk with couter := wk.couter + 1, pc := .recv }
          simp only [hw, WorkerPc.pendingUrls, List.count_nil] at h1 h2 ⊢
          omega
        · have h2 := setHolds { wk with couter := wk.couter + 1, pc := .recv }
          have e2 : ({ wk with couter := wk.couter + 1, pc := .recv } : Worker).holds = 0 := by
            simp [Worker.holds, Worker.inCritical]
          rw [e1, e2] at h2
          dsimp only
          have hle : (List.map Worker.holds s.workers).sum ≤ 1 := by
            rw [imutex]
            split_ifs <;> omega
          rw [if_neg (by simp)]
          omega
    | exited => simp [hw] at h

/-! ## Runs -/

theorem step_inv (cfg : Config) (net : Net) (total : List Job) (s s1 : State) (a : Actor)
    (inv : Inv net total s) (h : step cfg net s a = some s1) : Inv net total s1 := by
  unfold step at h
  split_ifs at h
  cases a with
  | producer => exact producer_inv cfg net total s s1 inv h
  | worker k => exact worker_inv cfg net total s s1 k inv h

theorem run_inv (cfg : Config) (net : Net) (total : List Job) (sched : List Actor)
    (s s1 : State) (inv : Inv net total s) (h : run cfg net sched s = some s1) :
    Inv net total s1 := by
  induction sched generalizing s with
  | nil =>
    simp only [run, Option.some.injEq] at h
    subst h
    exact inv
  | cons a rest ih =>
    unfold run at h
    split at h
    · cases h
    · next s2 hs => exact ih s2 (step_inv cfg net total s s2 a inv hs) h

theorem reach_inv (cfg : Config) (net : Net) (input : List ReadResult) (sched : List Actor)
    (s0 s : State) (h0 : ProcessFile.start input = .ok s0) (h : run cfg net sched s0 = some s) :
    Inv net (validJobs s0.titleIndex s0.urlIndex input.tail) s :=
  run_inv cfg net _ sched s0 s (init_inv net input s0 h0) h

/-! ## Facts about the jobs of an input -/

theorem mem_validJobs (ti ui : Int) (input : List ReadResult) (j : Job)
    (h : j ∈ validJobs ti ui input) :
    ∃ record ∈ recordsRead input, fieldAt record ti = j.title ∧ fieldAt record ui = j.url ∧
      j.title ≠ "" ∧ j.url ≠ "" := by
  unfold validJobs at h
  simp only [List.mem_map, List.mem_filter] at h
  obtain ⟨record, ⟨hmem, hvalid⟩, rfl⟩ := h
  simp only [validRecord, Bool.and_eq_true, decide_eq_true_eq] at hvalid
  exact ⟨record, hmem, rfl, rfl, hvalid.1, hvalid.2⟩

theorem fieldAt_get (record : List String) (i : Int) (v : String) (h : fieldAt record i = v)
    (hv : v ≠ "") : 0 ≤ i ∧ record[i.toNat]? = some v := by
  unfold fieldAt at h
  split_ifs at h with hi
  · refine ⟨hi, ?_⟩
    rw [List.getD_eq_getElem?_getD] at h
    cases hg : record[i.toNat]? with
    | none =>
      rw [hg] at h
      exact absurd h.symm hv
    | some x =>
      rw [hg] at h
      simp only [Option.getD_some] at h
      rw [h]
  · exact absurd h.symm hv

theorem mem_rowsOfJobs (net : Net) (jobs : List Job) (row : List String)
    (h : row ∈ rowsOfJobs net jobs) :
    ∃ j ∈ jobs, ∃ content, scraping net j.url = .ok content ∧ row = dataRow j.title content := by
  unfold rowsOfJobs at h
  simp only [List.mem_filterMap] at h
  obtain ⟨j, hj, hrow⟩ := h
  refine ⟨j, hj, ?_⟩
  unfold successRow at hrow
  split at hrow
  · next content hres =>
    simp only [Option.some.injEq] at hrow
    exact ⟨content, hres, hrow.symm⟩
  · cases hrow

theorem sum_map_eq_zero (f : Worker → Nat) (l : List Worker) (h : ∀ wk ∈ l, f wk = 0) :
    (l.map f).sum = 0 := by
  induction l with
  | nil => rfl
  | cons x rest ih =>
    simp only [List.map_cons, List.sum_cons]
    rw [h x (List.mem_cons_self x rest), ih (fun wk hwk => h wk (List.mem_cons_of_mem x hwk))]

theorem idle_pendingRows (net : Net) (wk : Worker) (h : wk.idle = true) :
    wk.pc.pendingRows net = [] := by
  unfold Worker.idle at h
  cases hpc : wk.pc <;> simp [hpc] at h <;> rfl

theorem idle_pendingUrls (wk : Worker) (h : wk.idle = true) : wk.pc.pendingUrls = [] := by
  unfold Worker.idle at h
  cases hpc : wk.pc <;> simp [hpc] at h <;> rfl

theorem scanned_pendingJobs (s : State) (h : s.pc.scanned = true) : pendingJobs s = [] := by
  unfold pendingJobs
  cases hpc : s.pc <;> simp [hpc, ProducerPc.scanned] at h ⊢

theorem count_rows_inst (r : List String) (l : List (List String)) :
    @List.count _ instBEqOfDecidableEq r l = @List.count _ List.instBEq r l := by
  unfold List.count
  apply List.countP_congr
  intro x _
  rw [@beq_iff_eq _ instBEqOfDecidableEq, @beq_iff_eq _ List.instBEq]

theorem drained_rows (net : Net) (total : List Job) (s : State) (inv : Inv net total s)
    (hd : drained s = true) : List.Perm (dataRows s) (rowsOfJobs net total) := by
  unfold drained at hd
  simp only [Bool.and_eq_true, Bool.not_eq_true', List.isEmpty_iff, List.all_eq_true] at hd
  obtain ⟨⟨⟨-, hscan⟩, hq⟩, hidle⟩ := hd
  have hsub : s.submitted = total := by
    have := inv.prod
    rwa [scanned_pendingJobs s hscan, List.append_nil] at this
  rw [List.perm_iff_count]
  intro r
  have h1 := inv.rows r
  have h2 : (s.workers.map (fun wk => (wk.pc.pendingRows net).count r)).sum = 0 :=
    sum_map_eq_zero _ _ (fun wk hwk => by simp [idle_pendingRows net wk (hidle wk hwk)])
  rw [h2, hq, hsub] at h1
  rw [count_rows_inst, count_rows_inst]
  simpa [rowsOfJobs] using h1

theorem drained_urls (net : Net) (total : List Job) (s : State) (inv : Inv net total s)
    (hd : drained s = true) : List.Perm s.fetched (total.map Job.url) := by
  unfold drained at hd
  simp only [Bool.and_eq_true, Bool.not_eq_true', List.isEmpty_iff, List.all_eq_true] at hd
  obtain ⟨⟨⟨-, hscan⟩, hq⟩, hidle⟩ := hd
  have hsub : s.submitted = total := by
    have := inv.prod
    rwa [scanned_pendingJobs s hscan, List.append_nil] at this
  rw [List.perm_iff_count]
  intro u
  have h1 := inv.urls u
  have h2 : (s.workers.map (fun wk => wk.pc.pendingUrls.count u)).sum = 0 :=
    sum_map_eq_zero _ _ (fun wk hwk => by simp [idle_pendingUrls wk (hidle wk hwk)])
  rw [h2, hq, hsub] at h1
  simpa using h1

theorem mem_dataRows (net : Net) (total : List Job) (s : State) (inv : Inv net total s)
    (row : List String) (h : row ∈ dataRows s) : row ∈ rowsOfJobs net total := by
  have h1 := inv.rows row
  have h2 : 0 < (dataRows s).count row := List.count_pos_iff.mpr h
  have h3 : 0 < (rowsOfJobs net s.submitted).count row := by omega
  have h4 : row ∈ rowsOfJobs net s.submitted := List.count_pos_iff.mp h3
  unfold rowsOfJobs at h4 ⊢
  rw [← inv.prod, List.filterMap_append]
  exact List.mem_append_left _ h4

/-! ## Runs from the start -/

theorem step_indexes (cfg : Config) (net : Net) (s s1 : State) (a : Actor)
    (h : step cfg net s a = some s1) :
    s1.titleIndex = s.titleIndex ∧ s1.urlIndex = s.urlIndex := by
  unfold step at h
  split_ifs at h
  cases a with
  | producer =>
    unfold ProcessFile.step at h
    cases hpc : s.pc <;> simp only [hpc] at h
    all_goals try split at h
    all_goals try split_ifs at h
    all_goals first | (cases h; exact ⟨rfl, rfl⟩) | cases h
  | worker k =>
    unfold worker at h
    cases hk : s.workers[k]? with
    | none => simp [hk] at h
    | some wk =>
      simp only [hk] at h
      cases hw : wk.pc <;> simp only [hw] at h
      all_goals try split at h
      all_goals try split_ifs at h
      all_goals first | (cases h; exact ⟨rfl, rfl⟩) | cases h

theorem run_indexes (cfg : Config) (net : Net) (sched : List Actor) (s s1 : State)
    (h : run cfg net sched s = some s1) :
    s1.titleIndex = s.titleIndex ∧ s1.urlIndex = s.urlIndex := by
  induction sched generalizing s with
  | nil =>
    simp only [run, Option.some.injEq] at h
    subst h
    exact ⟨rfl, rfl⟩
  | cons a rest ih =>
    unfold run at h
    split at h
    · cases h
    · next s2 hs =>
      have h1 := step_indexes cfg net s s2 a hs
      have h2 := ih s2 h
      exact ⟨h2.1.trans h1.1, h2.2.trans h1.2⟩

theorem finalState_some (cfg : Config) (net : Net) (input : List ReadResult)
    (sched : List Actor) (s : State) (h : finalState cfg net input sched = some s) :
    ∃ s0, ProcessFile.start input = .ok s0 ∧ run cfg net sched s0 = some s := by
  unfold finalState at h
  split at h
  · next s0 h0 => exact ⟨s0, h0, h⟩
  · cases h

theorem final_inv (cfg : Config) (net : Net) (input : List ReadResult) (sched : List Actor)
    (s : State) (h : finalState cfg net input sched = some s) :
    Inv net (validJobs s.titleIndex s.urlIndex input.tail) s := by
  obtain ⟨s0, h0, hrun⟩ := finalState_some cfg net input sched s h
  have hidx := run_indexes cfg net sched s0 s hrun
  rw [hidx.1, hidx.2]
  exact reach_inv cfg net input sched s0 s h0 hrun

theorem le_sum_map (f : Worker → Nat) (l : List Worker) (k : Nat) (wk : Worker)
    (h : l[k]? = some wk) : f wk ≤ (l.map f).sum := by
  have := sum_map_set f l k wk wk h
  induction l generalizing k with
  | nil => simp at h
  | cons x rest ih =>
    cases k with
    | zero =>
      simp only [List.getElem?_cons_zero, Option.some.injEq] at h
      subst h
      simp only [List.map_cons, List.sum_cons]
      omega
    | succ n =>
      simp only [List.getElem?_cons_succ] at h
      have := ih n h (sum_map_set f rest n wk wk h)
      simp only [List.map_cons, List.sum_cons]
      omega

theorem sum_holds (l : List Worker) :
    (l.map Worker.holds).sum = (l.filter Worker.inCritical).length := by
  induction l with
  | nil => rfl
  | cons x rest ih =>
    simp only [List.map_cons, List.sum_cons, List.filter_cons, ih, Worker.holds]
    cases x.inCritical <;> simp
    omega

/-! ## The shape of a data row -/

theorem quoted_data (t : String) : ("\"" ++ t ++ "\"").data = '"' :: (t.data ++ ['"']) := by
  cases t with
  | mk cs => rfl

theorem dataRow_ne_header (t c : String) : dataRow t c ≠ outputHeader := by
  intro h
  unfold dataRow outputHeader at h
  have h1 : "\"" ++ t ++ "\"" = "title" := by
    injection h
  have h2 := congrArg String.data h1
  rw [quoted_data] at h2
  have h3 : "title".data = ['t', 'i', 't', 'l', 'e'] := rfl
  rw [h3] at h2
  injection h2 with h4 _
  exact absurd h4 (by decide)

/-- C3: for every header row, `ProcessFile` fails with "title or url not found" exactly when
no field equals "title" or no field equals "url"; the comparison is exact, so "Title" and
" url" do not count. An error carries no state (nothing written, no worker started);
otherwise `ProcessFile` goes on with the columns located wherever they are, the output
header written and no worker started yet. -/
theorem C3_header_validation (titleUrlIndex : List String) (rest : List ReadResult) :
    (ProcessFile.start (.record titleUrlIndex :: rest) = .error "title or url not found"
      ↔ ("title" ∉ titleUrlIndex ∨ "url" ∉ titleUrlIndex)) ∧
    (match ProcessFile.start (.record titleUrlIndex :: rest) with
      | .error msg =>
        msg = "title or url not found" ∧ ("title" ∉ titleUrlIndex ∨ "url" ∉ titleUrlIndex)
      | .ok s0 =>
        0 ≤ s0.titleIndex ∧ titleUrlIndex[s0.titleIndex.toNat]? = some "title" ∧
        0 ≤ s0.urlIndex ∧ titleUrlIndex[s0.urlIndex.toNat]? = some "url" ∧
        s0.reader = rest ∧ s0.writer.w = [["title", "content"]] ∧ s0.workers = []) ∧
    ProcessFile.start [.record ["Title", "url"]] = .error "title or url not found" ∧
    ProcessFile.start [.record ["title", " url"]] = .error "title or url not found" ∧
    (∃ s0, ProcessFile.start [.record ["id", "url", "date", "title"]] = .ok s0 ∧
      s0.titleIndex = 3 ∧ s0.urlIndex = 1) := by
  have hfst := headerLoop_fst titleUrlIndex 0 (-1, -1)
  have hsnd := headerLoop_snd titleUrlIndex 0 (-1, -1)
  simp only [true_and] at hfst hsnd
  have hmissing : ((headerLoop titleUrlIndex 0 (-1, -1)).1 = -1 ∨
      (headerLoop titleUrlIndex 0 (-1, -1)).2 = -1) ↔
      ("title" ∉ titleUrlIndex ∨ "url" ∉ titleUrlIndex) := by
    rw [hfst, hsnd]
  refine ⟨?_, ?_, rfl, rfl, ⟨_, rfl, rfl, rfl⟩⟩
  · unfold ProcessFile.start
    dsimp only
    split_ifs with hc
    · simp only [true_iff]
      exact hmissing.mp hc
    · simp only [reduceCtorEq, false_iff]
      exact fun h => hc (hmissing.mpr h)
  · unfold ProcessFile.start
    dsimp only
    split_ifs with hc
    · exact ⟨rfl, hmissing.mp hc⟩
    · dsimp only
      have h1 : (headerLoop titleUrlIndex 0 (-1, -1)).1 ≠ -1 := fun h => hc (Or.inl h)
      have h2 : (headerLoop titleUrlIndex 0 (-1, -1)).2 ≠ -1 := fun h => hc (Or.inr h)
      rcases headerLoop_fst_points titleUrlIndex 0 (-1, -1) with h | ⟨n, hn, hg⟩
      · exact absurd h h1
      · rcases headerLoop_snd_points titleUrlIndex 0 (-1, -1) with h | ⟨m, hm, hg2⟩
        · exact absurd h h2
        · rw [hn, hm]
          simp only [zero_add, Int.toNat_ofNat]
          rw [List.get?_eq_getElem?] at hg hg2
          exact ⟨Int.ofNat_nonneg n, hg, Int.ofNat_nonneg m, hg2, by trivial, by trivial, by trivial⟩

/-! ## The claims -/

set_option maxRecDepth 100000

/-- C5: in every reachable state, every job sent over `jobsChan` has a non-empty title and a
non-empty url, both present as fields of one record of the input (so a record that is too
short for a column, or has an empty field there, is never submitted), and the number of
data rows written is at most the number of input records with non-empty title and url. -/
theorem C5_submitted_jobs_nonempty (cfg : Config) (net : Net) (input : List ReadResult)
    (sched : List Actor) (s : State) (h : finalState cfg net input sched = some s) :
    (∀ j ∈ s.submitted, j.title ≠ "" ∧ j.url ≠ "" ∧
      ∃ record ∈ recordsRead input.tail,
        record[s.titleIndex.toNat]? = some j.title ∧ record[s.urlIndex.toNat]? = some j.url) ∧
    (dataRows s).length
      ≤ ((recordsRead input.tail).filter (validRecord s.titleIndex s.urlIndex)).length := by
  have inv := final_inv cfg net input sched s h
  have hsub : ∀ j ∈ s.submitted, j ∈ validJobs s.titleIndex s.urlIndex input.tail := by
    intro j hj
    rw [← inv.prod]
    exact List.mem_append_left _ hj
  refine ⟨?_, ?_⟩
  · intro j hj
    obtain ⟨record, hmem, ht, hu, hne1, hne2⟩ := mem_validJobs _ _ _ j (hsub j hj)
    exact ⟨hne1, hne2, record, hmem, (fieldAt_get record _ _ ht hne1).2,
      (fieldAt_get record _ _ hu hne2).2⟩
  · have hle : ∀ r ∈ dataRows s, @List.count _ instBEqOfDecidableEq r (dataRows s)
        ≤ @List.count _ instBEqOfDecidableEq r (rowsOfJobs net s.submitted) := by
      intro r _
      have := inv.rows r
      rw [count_rows_inst, count_rows_inst]
      omega
    have h1 := (List.subperm_ext_iff.mpr hle).length_le
    have h2 : (rowsOfJobs net s.submitted).length ≤ s.submitted.length :=
      List.length_filterMap_le _ _
    have h3 : s.submitted.length ≤ (validJobs s.titleIndex s.urlIndex input.tail).length := by
      rw [← inv.prod, List.length_append]
      omega
    have h4 : (validJobs s.titleIndex s.urlIndex input.tail).length
        = ((recordsRead input.tail).filter (validRecord s.titleIndex s.urlIndex)).length := by
      unfold validJobs
      rw [List.length_map]
    omega

/-- C5, at the example of the specification run with the constants of main.go: the two
submitted jobs come from the first and the third record, and two rows are written. -/
theorem C5_witness :
    finalState sourceConfig exampleNet exampleInput (exampleSchedule 98) = some (exampleFinal 98) ∧
    ((∀ j ∈ (exampleFinal 98).submitted, j.title ≠ "" ∧ j.url ≠ "" ∧
      ∃ record ∈ recordsRead exampleInput.tail,
        record[(exampleFinal 98).titleIndex.toNat]? = some j.title ∧
        record[(exampleFinal 98).urlIndex.toNat]? = some j.url) ∧
    (dataRows (exampleFinal 98)).length
      ≤ ((recordsRead exampleInput.tail).filter
          (validRecord (exampleFinal 98).titleIndex (exampleFinal 98).urlIndex)).length) :=
  ⟨by decide, C5_submitted_jobs_nonempty sourceConfig exampleNet exampleInput (exampleSchedule 98)
    (exampleFinal 98) (by decide)⟩

/-- C8: in every run that passes header validation, whatever the worker count and the
interleaving, the records handed to the csv writer start with `["title", "content"]`, that
record occurs exactly once, and it is written before the first worker is started: at the
first `go` statement it is the only record and there is no worker. -/
theorem C8_header_first (cfg : Config) (net : Net) (input : List ReadResult)
    (sched : List Actor) (s : State) (h : finalState cfg net input sched = some s) :
    s.writer.w = ["title", "content"] :: dataRows s ∧
    s.writer.w.head? = some ["title", "content"] ∧
    (s.writer.w.filter (fun row => decide (row = ["title", "content"]))).length = 1 ∧
    (∀ row ∈ dataRows s, ∃ title content, row = dataRow title content) ∧
    (∃ s0, ProcessFile.start input = .ok s0 ∧ run cfg net sched s0 = some s ∧
      s0.writer.w = [["title", "content"]] ∧ s0.workers = [] ∧ s0.pc = .spawn 0) := by
  have inv := final_inv cfg net input sched s h
  have hrows : ∀ row ∈ dataRows s, ∃ title content, row = dataRow title content := by
    intro row hrow
    obtain ⟨j, -, content, -, hr⟩ :=
      mem_rowsOfJobs net _ row (mem_dataRows net _ s inv row hrow)
    exact ⟨j.title, content, hr⟩
  have hw : s.writer.w = ["title", "content"] :: dataRows s := inv.header
  refine ⟨hw, by rw [hw]; rfl, ?_, hrows, ?_⟩
  · rw [hw, List.filter_cons_of_pos (by simp)]
    have : (dataRows s).filter (fun row => decide (row = ["title", "content"])) = [] := by
      rw [List.filter_eq_nil_iff]
      intro row hrow
      obtain ⟨title, content, hr⟩ := hrows row hrow
      have := dataRow_ne_header title content
      simpa [hr, outputHeader] using this
    rw [this]
    rfl
  · obtain ⟨s0, h0, hrun⟩ := finalState_some cfg net input sched s h
    obtain ⟨-, h2, -, h4, h5, -⟩ := start_ok input s0 h0
    exact ⟨s0, h0, hrun, by rw [h2]; rfl, h4, h5⟩

/-- C8, at the example of the specification run with the constants of main.go. -/
theorem C8_witness :
    finalState sourceConfig exampleNet exampleInput (exampleSchedule 98) = some (exampleFinal 98) ∧
    (exampleFinal 98).writer.w
      = [["title", "content"], ["\"B\"", "\"c3\""], ["\"A\"", "\"c1\""]] ∧
    (exampleFinal 98).writer.w.head? = some ["title", "content"] ∧
    ((exampleFinal 98).writer.w.filter (fun row => decide (row = ["title", "content"]))).length
      = 1 :=
  have h := C8_header_first sourceConfig exampleNet exampleInput (exampleSchedule 98)
    (exampleFinal 98) (by decide)
  ⟨by decide, rfl, h.2.1, h.2.2.1⟩

theorem writes_hold_lock (cfg : Config) (net : Net) (total : List Job) (s s1 : State)
    (a : Actor) (inv : Inv net total s) (h : step cfg net s a = some s1)
    (hw : s1.writer.w ≠ s.writer.w) :
    s.writer.mu = true ∧ ∃ k wk title content, a = .worker k ∧ s.workers[k]? = some wk ∧
      wk.pc = .write title content ∧ s1.writer.w = s.writer.w ++ [dataRow title content] := by
  unfold step at h
  split_ifs at h
  cases a with
  | producer =>
    exfalso
    apply hw
    unfold ProcessFile.step at h
    cases hpc : s.pc <;> simp only [hpc] at h
    all_goals try split at h
    all_goals try split_ifs at h
    all_goals first | (cases h; rfl) | cases h
  | worker k =>
    unfold worker at h
    cases hk : s.workers[k]? with
    | none => simp [hk] at h
    | some wk =>
      simp only [hk] at h
      cases hpc : wk.pc with
      | write title content =>
        simp only [hpc] at h
        cases h
        refine ⟨?_, k, wk, title, content, rfl, hk, hpc, rfl⟩
        have h1 := le_sum_map Worker.holds s.workers k wk hk
        have h2 : wk.holds = 1 := by simp [Worker.holds, Worker.inCritical, hpc]
        have h3 := inv.mutex
        cases hmu : s.writer.mu with
        | true => rfl
        | false =>
          rw [hmu] at h3
          simp at h3
          omega
      | recv =>
        exfalso
        apply hw
        simp only [hpc] at h
        split at h
        · cases h; rfl
        · split_ifs at h
          cases h; rfl
      | scrape data =>
        exfalso
        apply hw
        simp only [hpc] at h
        split at h <;> (cases h; rfl)
      | lock title content =>
        exfalso
        apply hw
        simp only [hpc] at h
        split_ifs at h
        cases h; rfl
      | unlock title =>
        exfalso
        apply hw
        simp only [hpc] at h
        split_ifs at h <;> (cases h; rfl)
      | exited => simp [hpc] at h

theorem mem_fetched (net : Net) (total : List Job) (s : State) (inv : Inv net total s)
    (url : String) (h : url ∈ s.fetched) : ∃ j ∈ total, j.url = url := by
  have h1 := inv.urls url
  have h2 : 0 < s.fetched.count url := List.count_pos_iff.mpr h
  have h3 : 0 < (s.submitted.map Job.url).count url := by omega
  have h4 : url ∈ s.submitted.map Job.url := List.count_pos_iff.mp h3
  obtain ⟨j, hj, hu⟩ := List.mem_map.mp h4
  refine ⟨j, ?_, hu⟩
  rw [← inv.prod]
  exact List.mem_append_left _ hj

/-- C6: the collaborator is only ever called on the url of a job of a record with non-empty
title and url, and once all submitted jobs have been processed the data rows are, up to
order, exactly the rows of the pairs (title, content) of those records whose url `scraping`
maps to a content, while `scraping` was called exactly once for each of those records. -/
theorem C6_rows_of_successful_jobs (cfg : Config) (net : Net) (input : List ReadResult)
    (sched : List Actor) (s : State) (h : finalState cfg net input sched = some s) :
    (∀ url ∈ s.fetched, ∃ j ∈ validJobs s.titleIndex s.urlIndex input.tail, j.url = url) ∧
    (drained s = true →
      List.Perm (dataRows s)
        (((validJobs s.titleIndex s.urlIndex input.tail).filterMap
          (fun j => match scraping net j.url with
            | .ok content => some (j.title, content)
            | _ => none)).map (fun pair => dataRow pair.1 pair.2)) ∧
      List.Perm s.fetched ((validJobs s.titleIndex s.urlIndex input.tail).map Job.url)) := by
  have inv := final_inv cfg net input sched s h
  refine ⟨fun url hurl => mem_fetched net _ s inv url hurl, fun hd => ⟨?_, ?_⟩⟩
  · have hrows := drained_rows net _ s inv hd
    have heq : ∀ jobs : List Job, rowsOfJobs net jobs
        = (jobs.filterMap (fun j => match scraping net j.url with
            | .ok content => some (j.title, content)
            | _ => none)).map (fun pair => dataRow pair.1 pair.2) := by
      intro jobs
      induction jobs with
      | nil => rfl
      | cons j rest ih =>
        unfold rowsOfJobs at ih ⊢
        rw [List.filterMap_cons, List.filterMap_cons, ih]
        unfold successRow
        cases scraping net j.url <;> rfl
    rw [heq] at hrows
    exact hrows
  · exact drained_urls net _ s inv hd

/-- C6, at the example of the specification run with the constants of main.go: the rows are
those of the pairs (A, c1) and (B, c3), here written in the opposite order, and `u2` was
never fetched. -/
theorem C6_witness :
    finalState sourceConfig exampleNet exampleInput (exampleSchedule 98) = some (exampleFinal 98) ∧
    drained (exampleFinal 98) = true ∧
    dataRows (exampleFinal 98) = [dataRow "B" "c3", dataRow "A" "c1"] ∧
    List.Perm (dataRows (exampleFinal 98))
      ([("A", "c1"), ("B", "c3")].map (fun pair => dataRow pair.1 pair.2)) ∧
    List.Perm (exampleFinal 98).fetched ["u1", "u3"] ∧
    "u2" ∉ (exampleFinal 98).fetched :=
  have h := (C6_rows_of_successful_jobs sourceConfig exampleNet exampleInput (exampleSchedule 98)
    (exampleFinal 98) (by decide)).2 (by decide)
  have e1 : (validJobs (exampleFinal 98).titleIndex (exampleFinal 98).urlIndex
      exampleInput.tail).filterMap (fun j => match scraping exampleNet j.url with
        | .ok content => some (j.title, content)
        | _ => none) = [("A", "c1"), ("B", "c3")] := by decide
  have e2 : (validJobs (exampleFinal 98).titleIndex (exampleFinal 98).urlIndex
      exampleInput.tail).map Job.url = ["u1", "u3"] := by decide
  ⟨by decide, by decide, by decide, e1 ▸ h.1, e2 ▸ h.2, by decide⟩

/-- C10: in every reachable state at most one worker is between `Lock` and `Unlock` (and
none when the mutex is free), a record is only appended to the writer by a worker that
holds the mutex, every data row is the row of one submitted job (its title with the content
scraped from its url), and for a fixed input and collaborator the rows of two drained runs
are the same up to order whatever the two worker counts and interleavings. -/
theorem C10_writes_exclusive (cfg : Config) (net : Net) (input : List ReadResult)
    (sched : List Actor) (s : State) (h : finalState cfg net input sched = some s) :
    (s.workers.filter Worker.inCritical).length ≤ 1 ∧
    (s.writer.mu = false → ∀ wk ∈ s.workers, wk.inCritical = false) ∧
    (∀ a s1, step cfg net s a = some s1 → s1.writer.w ≠ s.writer.w →
      s.writer.mu = true ∧ ∃ k wk title content, a = .worker k ∧ s.workers[k]? = some wk ∧
        wk.pc = .write title content ∧ s1.writer.w = s.writer.w ++ [dataRow title content]) ∧
    (∀ row ∈ dataRows s, ∃ j ∈ validJobs s.titleIndex s.urlIndex input.tail, ∃ content,
      scraping net j.url = .ok content ∧ row = dataRow j.title content) ∧
    (∀ cfg2 sched2 s2, finalState cfg2 net input sched2 = some s2 →
      drained s = true → drained s2 = true → List.Perm (dataRows s) (dataRows s2)) := by
  have inv := final_inv cfg net input sched s h
  have hsum := inv.mutex
  rw [sum_holds] at hsum
  refine ⟨?_, ?_, ?_, ?_, ?_⟩
  · rw [hsum]
    split_ifs <;> omega
  · intro hmu wk hwk
    rw [hmu] at hsum
    simp only [Bool.false_eq_true, if_false, List.length_eq_zero, List.filter_eq_nil_iff] at hsum
    simpa using hsum wk hwk
  · intro a s1 hstep hw
    exact writes_hold_lock cfg net _ s s1 a inv hstep hw
  · intro row hrow
    exact mem_rowsOfJobs net _ row (mem_dataRows net _ s inv row hrow)
  · intro cfg2 sched2 s2 h2 hd hd2
    have inv2 := final_inv cfg2 net input sched2 s2 h2
    obtain ⟨s0, h0, hrun⟩ := finalState_some cfg net input sched s h
    obtain ⟨s0b, h0b, hrun2⟩ := finalState_some cfg2 net input sched2 s2 h2
    have hs0 : s0b = s0 := by
      rw [h0] at h0b
      injection h0b with e
      exact e.symm
    subst hs0
    have i1 := run_indexes cfg net sched s0b s hrun
    have i2 := run_indexes cfg2 net sched2 s0b s2 hrun2
    rw [i2.1, i2.2, ← i1.1, ← i1.2] at inv2
    exact (drained_rows net _ s inv hd).trans (drained_rows net _ s2 inv2 hd2).symm

/-- C10, at the example of the specification with 1, 10 and 200 workers: the three runs write
the same two rows, the first in another order than the other two. -/
theorem C10_witness :
    finalState ⟨1000, 1⟩ exampleNet exampleInput exampleSchedule1 = some exampleFinal1 ∧
    finalState ⟨1000, 10⟩ exampleNet exampleInput (exampleSchedule 8) = some (exampleFinal 8) ∧
    finalState ⟨1000, 200⟩ exampleNet exampleInput (exampleSchedule 198)
      = some (exampleFinal 198) ∧
    List.Perm (dataRows exampleFinal1) (dataRows (exampleFinal 8)) ∧
    List.Perm (dataRows exampleFinal1) (dataRows (exampleFinal 198)) ∧
    dataRows exampleFinal1 = [dataRow "A" "c1", dataRow "B" "c3"] ∧
    dataRows (exampleFinal 198) = [dataRow "B" "c3", dataRow "A" "c1"] :=
  have h := (C10_writes_exclusive ⟨1000, 1⟩ exampleNet exampleInput exampleSchedule1
    exampleFinal1 (by decide)).2.2.2.2
  ⟨by decide, by decide, by decide,
    h ⟨1000, 10⟩ (exampleSchedule 8) (exampleFinal 8) (by decide) (by decide) (by decide),
    h ⟨1000, 200⟩ (exampleSchedule 198) (exampleFinal 198) (by decide) (by decide) (by decide),
    by decide, by decide⟩

theorem worker_keeps_counter (cfg : Config) (net : Net) (s s1 : State) (k : Nat)
    (h : step cfg net s (.worker k) = some s1) : s1.c.wg = s.c.wg := by
  unfold step at h
  split_ifs at h
  unfold worker at h
  cases hk : s.workers[k]? with
  | none => simp [hk] at h
  | some wk =>
    simp only [hk] at h
    cases hw : wk.pc <;> simp only [hw] at h
    all_goals try split at h
    all_goals try split_ifs at h
    all_goals first | (cases h; rfl) | cases h

/-- C1 (what the code does instead): the counter of `wg` is never decremented. No move of a
worker changes it, so in every reachable state it equals the number of jobs sent over
`jobsChan` (plus the one whose `wg.Add(1)` is done and whose send is pending), however many
of them the workers have completed. -/
theorem C1_counter_never_decremented (cfg : Config) (net : Net) (input : List ReadResult)
    (sched : List Actor) (s : State) (h : finalState cfg net input sched = some s) :
    s.c.wg = s.submitted.length + s.pc.added ∧
    (∀ k s1, step cfg net s (.worker k) = some s1 → s1.c.wg = s.c.wg) ∧
    (drained s = true → s.c.wg = s.submitted.length) := by
  have inv := final_inv cfg net input sched s h
  refine ⟨inv.counter, fun k s1 hs => worker_keeps_counter cfg net s s1 k hs, ?_⟩
  intro hd
  have hc := inv.counter
  unfold drained at hd
  simp only [Bool.and_eq_true] at hd
  obtain ⟨⟨⟨-, hscan⟩, -⟩, -⟩ := hd
  cases hpc : s.pc <;> simp [hpc, ProducerPc.scanned, ProducerPc.added] at hscan hc ⊢ <;> exact hc

/-- C1, at the example of the specification with one worker: both submitted jobs have been
completed and the queue is drained, yet the counter is 2. -/
theorem C1_witness :
    finalState ⟨1000, 1⟩ exampleNet exampleInput exampleSchedule1 = some exampleFinal1 ∧
    drained exampleFinal1 = true ∧ exampleFinal1.submitted.length = 2 ∧
    exampleFinal1.c.wg = 2 :=
  have h := C1_counter_never_decremented ⟨1000, 1⟩ exampleNet exampleInput exampleSchedule1
    exampleFinal1 (by decide)
  ⟨by decide, by decide, by decide, (h.2.2 (by decide)).trans (by decide)⟩

/-- C2 (what the code does instead): on an input with at least one record with non-empty
title and url, `ProcessFile` never returns, whatever the collaborator answers: the counter
of `wg` stays positive, so the producer is blocked for ever once it is at `wg.Wait()`, and
the deferred `Flush` is never run. -/
theorem C2_wait_never_passes (cfg : Config) (net : Net) (input : List ReadResult)
    (sched : List Actor) (s : State) (h : finalState cfg net input sched = some s)
    (hjobs : validJobs s.titleIndex s.urlIndex input.tail ≠ []) :
    s.pc ≠ .returned ∧ (s.pc = .wait → step cfg net s .producer = none) := by
  have inv := final_inv cfg net input sched s h
  have hc := inv.counter
  have hp := inv.prod
  constructor
  · intro hpc
    have hw := inv.waited hpc
    have hs : s.submitted = [] := by
      rw [hw] at hc
      exact List.length_eq_zero.mp (by omega)
    rw [hs, scanned_pendingJobs s (by rw [hpc]; rfl)] at hp
    exact hjobs hp.symm
  · intro hpc
    rw [scanned_pendingJobs s (by rw [hpc]; rfl), List.append_nil] at hp
    have hlen : s.submitted.length ≠ 0 := by
      rw [hp]
      exact fun h0 => hjobs (List.length_eq_zero.mp h0)
    have hwg : s.c.wg ≠ 0 := by omega
    unfold step
    by_cases hcr : s.crashed = true
    · rw [if_pos hcr]
    · rw [if_neg hcr]
      simp only [ProcessFile.step, hpc, if_neg hwg]

/-- C2, at the example of the specification with a collaborator that fails for every url and
one worker: the output holds the header only, both jobs were dropped, and the run is stuck
for ever, the producer at `wg.Wait()` and the worker out of its loop. -/
theorem C2_witness :
    finalState ⟨1000, 1⟩ failingNet exampleInput failingSchedule = some failingFinal ∧
    failingFinal.writer.w = [["title", "content"]] ∧ drained failingFinal = true ∧
    failingFinal.pc = .wait ∧ failingFinal.pc ≠ .returned ∧
    (∀ a, step ⟨1000, 1⟩ failingNet failingFinal a = none) :=
  have h := C2_wait_never_passes ⟨1000, 1⟩ failingNet exampleInput failingSchedule
    failingFinal (by decide) (by decide)
  ⟨by decide, by decide, by decide, rfl, h.1, fun a => by
    cases a with
    | producer => exact h.2 rfl
    | worker k => cases k <;> rfl⟩

theorem validJobs_skip (ti ui : Int) (pre post : List ReadResult) (record : List String)
    (h : fieldAt record ti = "" ∨ fieldAt record ui = "") :
    validJobs ti ui (pre ++ .record record :: post) = validJobs ti ui (pre ++ post) := by
  induction pre with
  | nil =>
    rw [List.nil_append, List.nil_append, validJobs_record, recordData_eq]
    exact if_pos h
  | cons x rest ih =>
    cases x with
    | error msg => rfl
    | record r =>
      rw [List.cons_append, List.cons_append, validJobs_record, validJobs_record, ih]

/-- C4 (the claim as stated fails): a record whose title consists of two spaces, which is
empty after trimming, is submitted as a job by `ProcessFile` run with the constants of
main.go. -/
theorem C4_counterexample :
    "  ".data.all Char.isWhitespace = true ∧
    (finalState sourceConfig exampleNet blankTitleInput submitFirst).map State.submitted
      = some [{ title := "  ", url := "u1" }] := by
  decide

/-- C4 (amended): a record whose title field or url field is the empty string (as read, no
trimming) is skipped: the producer logs, moves on to the next record without `wg.Add` and
without sending, and in every reachable state the jobs submitted so far are a prefix of the
jobs of the input with that record removed. -/
theorem C4_empty_field_skipped (cfg : Config) (net : Net) (titleUrlIndex : List String)
    (pre post : List ReadResult) (record : List String) (sched : List Actor) (s : State)
    (h : finalState cfg net (.record titleUrlIndex :: (pre ++ .record record :: post)) sched
      = some s)
    (hempty : fieldAt record s.titleIndex = "" ∨ fieldAt record s.urlIndex = "") :
    s.submitted <+: validJobs s.titleIndex s.urlIndex (pre ++ post) ∧
    (∀ st rest, st.crashed = false → st.pc = .read → st.titleIndex = s.titleIndex →
      st.urlIndex = s.urlIndex → st.reader = .record record :: rest →
      step cfg net st .producer
        = some { st with reader := rest, log := st.log ++ [.emptyField] }) := by
  have inv := final_inv cfg net _ sched s h
  constructor
  · have hp := inv.prod
    rw [List.tail_cons, validJobs_skip _ _ _ _ _ hempty] at hp
    rw [← hp]
    exact List.prefix_append _ _
  · intro st rest hcr hpc hti hui hrd
    have hdata : (recordData st.titleIndex st.urlIndex record).title = ""
        ∨ (recordData st.titleIndex st.urlIndex record).url = "" := by
      rw [recordData_eq, hti, hui]
      exact hempty
    have hnc : ¬ st.crashed = true := by simp [hcr]
    unfold step
    rw [if_neg hnc]
    simp only [ProcessFile.step, hpc, hrd]
    rw [if_pos hdata]

/-- C4 (amended), at the example of the specification run with the constants of main.go:
the second record has an empty title and the submitted jobs are those of the other two. -/
theorem C4_witness :
    finalState sourceConfig exampleNet
      (.record ["title", "url"] :: ([.record ["A", "u1"]] ++ .record ["", "u2"]
        :: [.record ["B", "u3"]])) (exampleSchedule 98) = some (exampleFinal 98) ∧
    fieldAt ["", "u2"] (exampleFinal 98).titleIndex = "" ∧
    (exampleFinal 98).submitted
      <+: validJobs (exampleFinal 98).titleIndex (exampleFinal 98).urlIndex
        ([.record ["A", "u1"]] ++ [.record ["B", "u3"]]) ∧
    (exampleFinal 98).submitted = [{ title := "A", url := "u1" }, { title := "B", url := "u3" }] :=
  have h := C4_empty_field_skipped sourceConfig exampleNet ["title", "url"]
    [.record ["A", "u1"]] [.record ["B", "u3"]] ["", "u2"] (exampleSchedule 98)
    (exampleFinal 98) (by decide) (Or.inl (by decide))
  ⟨by decide, by decide, h.1, rfl⟩

theorem crashed_stuck (cfg : Config) (net : Net) (s : State) (a : Actor)
    (h : s.crashed = true) : step cfg net s a = none := by
  unfold step
  rw [if_pos h]

theorem worker_scrape_step (cfg : Config) (net : Net) (s : State) (k : Nat) (wk : Worker)
    (data : Job) (hcr : s.crashed = false) (hk : s.workers[k]? = some wk)
    (hpc : wk.pc = .scrape data) :
    step cfg net s (.worker k) =
      match scraping net data.url with
      | .fatal =>
        some { s with fetched := s.fetched ++ [data.url]
                      log := s.log ++ [.fatal]
                      workers := s.workers.set k { wk with pc := .exited }
                      crashed := true }
      | .err code =>
        some { s with fetched := s.fetched ++ [data.url]
                      log := s.log ++ [.statusError code, .scrapeError data.url]
                      workers := s.workers.set k { wk with pc := .recv } }
      | .ok content =>
        some { s with fetched := s.fetched ++ [data.url]
                      workers := s.workers.set k { wk with pc := .lock data.title content } } := by
  have hnc : ¬ s.crashed = true := by simp [hcr]
  unfold step
  rw [if_neg hnc]
  simp only [worker, hk, hpc]

theorem worker_lock_step (cfg : Config) (net : Net) (s : State) (k : Nat) (wk : Worker)
    (title content : String) (hcr : s.crashed = false) (hk : s.workers[k]? = some wk)
    (hpc : wk.pc = .lock title content) (hmu : s.writer.mu = false) :
    step cfg net s (.worker k) =
      some { s with writer := { s.writer with mu := true }
                    workers := s.workers.set k { wk with pc := .write title content } } := by
  have hnc : ¬ s.crashed = true := by simp [hcr]
  have hnm : ¬ s.writer.mu = true := by simp [hmu]
  unfold step
  rw [if_neg hnc]
  simp only [worker, hk, hpc, if_neg hnm]

theorem worker_write_step (cfg : Config) (net : Net) (s : State) (k : Nat) (wk : Worker)
    (title content : String) (hcr : s.crashed = false) (hk : s.workers[k]? = some wk)
    (hpc : wk.pc = .write title content) :
    step cfg net s (.worker k) =
      some { s with writer := { s.writer with w := s.writer.w ++ [dataRow title content] }
                    workers := s.workers.set k { wk with pc := .unlock title } } := by
  have hnc : ¬ s.crashed = true := by simp [hcr]
  unfold step
  rw [if_neg hnc]
  simp only [worker, hk, hpc]

/-- C7 (the claim as stated fails): on the example with one worker, when `http.Get` fails
for the url of the first job the process is killed (no actor can move any more, and the
log holds the fatal line, not the line naming the url), whereas for a 503 answer the worker
logs the url and goes on to write the row of the second job. -/
theorem C7_counterexample :
    transportNet "u1" = none ∧
    finalState ⟨1000, 1⟩ transportNet exampleInput (receiveFirst ++ [.worker 0])
      = some { exampleScraping with
          fetched := ["u1"], log := [.emptyField, .fatal]
          workers := [{ id := 0, couter := 0, pc := .exited }], crashed := true } ∧
    finalState ⟨1000, 1⟩ transportNet exampleInput (receiveFirst ++ [.worker 0, .worker 0])
      = none ∧
    finalState ⟨1000, 1⟩ transportNet exampleInput (receiveFirst ++ [.worker 0, .producer])
      = none ∧
    finalState ⟨1000, 1⟩ statusNet exampleInput (receiveFirst ++ [.worker 0])
      = some { exampleScraping with
          fetched := ["u1"], log := [.emptyField, .statusError 503, .scrapeError "u1"]
          workers := [{ id := 0, couter := 0, pc := .recv }] } ∧
    (finalState ⟨1000, 1⟩ statusNet exampleInput
      (receiveFirst ++ [.worker 0] ++ workJob 0)).map dataRows = some [dataRow "B" "c3"] := by
  decide

/-- C7 (amended): when `http.Get` fails for the url of the job a worker holds, `scraping`
calls `log.Fatal`: no error is returned, no row is written, the process is killed and no
actor moves any more. When the answer has a status other than 200, `scraping` returns an
error: the worker logs the url, writes no row, leaves the channel and the counter as they
are, and is back at the receive for the next job, with the process alive. -/
theorem C7_failure_outcomes (cfg : Config) (net : Net) (s : State) (k : Nat) (wk : Worker)
    (data : Job) (hcr : s.crashed = false) (hk : s.workers[k]? = some wk)
    (hpc : wk.pc = .scrape data) :
    (net data.url = none →
      ∃ s1, step cfg net s (.worker k) = some s1 ∧ s1.crashed = true ∧
        s1.writer = s.writer ∧ s1.log = s.log ++ [.fatal] ∧
        ∀ a, step cfg net s1 a = none) ∧
    (∀ res, net data.url = some res → res.statusCode ≠ 200 →
      step cfg net s (.worker k) =
        some { s with fetched := s.fetched ++ [data.url]
                      log := s.log ++ [.statusError res.statusCode, .scrapeError data.url]
                      workers := s.workers.set k { wk with pc := .recv } }) := by
  have hstep := worker_scrape_step cfg net s k wk data hcr hk hpc
  constructor
  · intro hnet
    have hres : scraping net data.url = .fatal := by
      unfold scraping
      rw [hnet]
    rw [hres] at hstep
    exact ⟨_, hstep, rfl, rfl, rfl, fun a => crashed_stuck cfg net _ a rfl⟩
  · intro res hnet hcode
    have hres : scraping net data.url = .err res.statusCode := by
      unfold scraping
      rw [hnet]
      simp only [ne_eq, hcode, not_false_eq_true, if_true]
    rw [hres] at hstep
    exact hstep

/-- C7 (amended), at the first job of the example: killed on a transport failure, dropped
and logged on a 503. -/
theorem C7_witness :
    finalState ⟨1000, 1⟩ exampleNet exampleInput receiveFirst = some exampleScraping ∧
    (∃ s1, step ⟨1000, 1⟩ transportNet exampleScraping (.worker 0) = some s1 ∧
      s1.crashed = true ∧ s1.writer = exampleScraping.writer ∧
      s1.log = exampleScraping.log ++ [.fatal] ∧
      ∀ a, step ⟨1000, 1⟩ transportNet s1 a = none) ∧
    step ⟨1000, 1⟩ statusNet exampleScraping (.worker 0) =
      some { exampleScraping with
        fetched := ["u1"], log := [.emptyField, .statusError 503, .scrapeError "u1"]
        workers := [{ id := 0, couter := 0, pc := .recv }] } :=
  ⟨by decide,
    (C7_failure_outcomes ⟨1000, 1⟩ transportNet exampleScraping 0
      { id := 0, couter := 0, pc := .scrape { title := "A", url := "u1" } }
      { title := "A", url := "u1" } rfl rfl rfl).1 rfl,
    (C7_failure_outcomes ⟨1000, 1⟩ statusNet exampleScraping 0
      { id := 0, couter := 0, pc := .scrape { title := "A", url := "u1" } }
      { title := "A", url := "u1" } rfl rfl rfl).2
      { statusCode := 503, contents := none } rfl (by decide)⟩

theorem escapeChars_append (a b : List Char) :
    escapeChars (a ++ b) = escapeChars a ++ escapeChars b := by
  induction a with
  | nil => rfl
  | cons c rest ih =>
    rw [List.cons_append, escapeChars, escapeChars, ih]
    split_ifs <;> rfl

theorem fieldNeedsQuotes_quoted (t : String) : fieldNeedsQuotes ("\"" ++ t ++ "\"") = true := by
  have hd := quoted_data t
  have h1 : "\"" ++ t ++ "\"" ≠ "" := by
    intro h
    rw [h] at hd
    cases hd
  have h2 : "\"" ++ t ++ "\"" ≠ "\\." := by
    intro h
    rw [h] at hd
    have : "\\.".data = ['\\', '.'] := rfl
    rw [this] at hd
    injection hd with h3 _
    exact absurd h3 (by decide)
  unfold fieldNeedsQuotes
  rw [if_neg h1, if_neg h2, hd]
  simp

theorem csvField_quoted (t : String) :
    csvField ("\"" ++ t ++ "\"")
      = String.mk ('"' :: '"' :: '"' :: (escapeChars t.data ++ ['"', '"', '"'])) := by
  unfold csvField
  rw [fieldNeedsQuotes_quoted, if_pos rfl, quoted_data]
  simp only [escapeChars, escapeChars_append, if_true]
  simp

theorem emitted_append (w : List (List String)) (record : List String) :
    emitted (w ++ [record]) = emitted w ++ csvRecord record := by
  unfold emitted
  rw [List.map_append, List.foldl_append]
  rfl

theorem csvRecord_dataRow (t c : String) :
    csvRecord (dataRow t c)
      = csvField ("\"" ++ t ++ "\"") ++ "," ++ csvField ("\"" ++ c ++ "\"") ++ "\n" := by
  unfold csvRecord dataRow
  rfl

/-- C9 (the claim as stated fails): for the title `say "hi"` and the content `c1` the csv
writer produces the line `"""say ""hi""""","""c1"""`: each field is between three double
quotes, not one, and the double quotes of the title are doubled. The line the claim
describes, `"say "hi"","c1"`, is not what is produced; the same holds for the plain title
`A`. -/
theorem C9_counterexample :
    (finalState ⟨1000, 1⟩ exampleNet quoteInput quoteSchedule).map
        (fun s => (s.writer.w, emitted s.writer.w))
      = some ([["title", "content"], ["\"say \"hi\"\"", "\"c1\""]],
          "title,content\n\"\"\"say \"\"hi\"\"\"\"\",\"\"\"c1\"\"\"\n") ∧
    csvRecord (dataRow "say \"hi\"" "c1") ≠ "\"say \"hi\"\",\"c1\"\n" ∧
    csvRecord (dataRow "A" "c1") = "\"\"\"A\"\"\",\"\"\"c1\"\"\"\n" ∧
    csvRecord (dataRow "A" "c1") ≠ "\"A\",\"c1\"\n" := by
  decide

/-- C9 (amended): when `scraping` succeeds on the url of the job a worker holds and the
mutex is free, the worker's next three moves (the call, `Lock`, `Write`) hand exactly one
record to the csv writer; the record has two fields, the title and the content each between
one leading and one trailing double quote, with their characters unchanged. The csv writer
then encloses each of the two fields in double quotes and doubles every double quote in it,
so the line it produces has the title and the content each between three double quotes,
with every double quote of theirs doubled and nothing else changed. -/
theorem C9_row_format (cfg : Config) (net : Net) (s : State) (k : Nat) (wk : Worker)
    (data : Job) (content : String) (hcr : s.crashed = false) (hk : s.workers[k]? = some wk)
    (hpc : wk.pc = .scrape data) (hres : scraping net data.url = .ok content)
    (hmu : s.writer.mu = false) :
    (∃ s1, run cfg net [.worker k, .worker k, .worker k] s = some s1 ∧
      s1.writer.w = s.writer.w ++ [["\"" ++ data.title ++ "\"", "\"" ++ content ++ "\""]] ∧
      emitted s1.writer.w = emitted s.writer.w ++
        (String.mk ('"' :: '"' :: '"' :: (escapeChars data.title.data ++ ['"', '"', '"']))
          ++ "," ++
          String.mk ('"' :: '"' :: '"' :: (escapeChars content.data ++ ['"', '"', '"']))
          ++ "\n")) ∧
    (dataRow data.title content).length = 2 ∧
    dataRow data.title content
      = [String.mk ('"' :: (data.title.data ++ ['"'])),
         String.mk ('"' :: (content.data ++ ['"']))] ∧
    csvRecord (dataRow data.title content)
      = String.mk ('"' :: '"' :: '"' :: (escapeChars data.title.data ++ ['"', '"', '"']))
        ++ "," ++
        String.mk ('"' :: '"' :: '"' :: (escapeChars content.data ++ ['"', '"', '"']))
        ++ "\n" := by
  have hlen : k < s.workers.length := (List.getElem?_eq_some_iff.mp hk).1
  have h1 := worker_scrape_step cfg net s k wk data hcr hk hpc
  rw [hres] at h1
  have hline : csvRecord (dataRow data.title content)
      = String.mk ('"' :: '"' :: '"' :: (escapeChars data.title.data ++ ['"', '"', '"']))
        ++ "," ++
        String.mk ('"' :: '"' :: '"' :: (escapeChars content.data ++ ['"', '"', '"']))
        ++ "\n" := by
    rw [csvRecord_dataRow, csvField_quoted, csvField_quoted]
  refine ⟨?_, rfl, ?_, hline⟩
  · have h2 := worker_lock_step cfg net
      { s with fetched := s.fetched ++ [data.url]
               workers := s.workers.set k { wk with pc := .lock data.title content } }
      k { wk with pc := .lock data.title content } data.title content hcr
      (List.getElem?_set_self hlen) rfl hmu
    have hlen2 : k < (s.workers.set k { wk with pc := .lock data.title content }).length := by
      rw [List.length_set]
      exact hlen
    have h3 := worker_write_step cfg net
      { s with fetched := s.fetched ++ [data.url]
               writer := { s.writer with mu := true }
               workers := (s.workers.set k { wk with pc := .lock data.title content }).set k
                 { wk with pc := .write data.title content } }
      k { wk with pc := .write data.title content } data.title content hcr
      (List.getElem?_set_self hlen2) rfl
    simp only [run, h1, h2, h3]
    refine ⟨_, rfl, rfl, ?_⟩
    show emitted (s.writer.w ++ [dataRow data.title content]) = _
    rw [emitted_append, hline]
  · unfold dataRow
    have e1 := quoted_data data.title
    have e2 := quoted_data content
    rw [← e1, ← e2]

/-- C9 (amended), at the first job of the example: the record handed to the writer is the
quoted title and the quoted content of the page of `u1`, and the writer produces the line
`"""A""","""c1"""` after the header line. -/
theorem C9_witness :
    finalState ⟨1000, 1⟩ exampleNet exampleInput receiveFirst = some exampleScraping ∧
    ∃ s1, run ⟨1000, 1⟩ exampleNet [.worker 0, .worker 0, .worker 0] exampleScraping = some s1 ∧
      s1.writer.w = [["title", "content"]] ++ [["\"" ++ "A" ++ "\"", "\"" ++ "c1" ++ "\""]] ∧
      emitted s1.writer.w = emitted [["title", "content"]] ++
        (String.mk ('"' :: '"' :: '"' :: (escapeChars "A".data ++ ['"', '"', '"']))
          ++ "," ++
          String.mk ('"' :: '"' :: '"' :: (escapeChars "c1".data ++ ['"', '"', '"']))
          ++ "\n") :=
  ⟨by decide,
    (C9_row_format ⟨1000, 1⟩ exampleNet exampleScraping 0
      { id := 0, couter := 0, pc := .scrape { title := "A", url := "u1" } }
      { title := "A", url := "u1" } "c1" rfl rfl rfl (by decide) rfl).1⟩

end Detik
